import Mathlib

/-!
Verification of the resource-manager core (crimson206/cleo-resource-manager).

The Python code under `src/src/resource_manager/` is shallowly embedded here:

* `PyVal` models the JSON-like values handled by `Config`
  (`src/resource_manager/core/config.py`): Python `None`, `bool`, `int`,
  `str`, `list`, `dict`.  Dict keys are modelled by `PyKey` (strings from
  decoded JSON, plus ints, which Python's `config[array_key][index] = value`
  can create when `config[array_key]` is a dict).
* Python runtime exceptions that the traversal code can raise are modelled
  by `PyErr`.  `Config.get` is `configGet`, `Config.set` is `configSet`,
  `Config._validate_config` is `validateConfig` (it returns the mutated
  configuration together with an optional error, because the Python method
  mutates `self._config` in place and those mutations persist even when it
  subsequently raises).
* `_is_valid_github_token` (github_auth.py) is `isValidGithubToken`,
  including the `re.match` semantics of `$` (which also matches just before
  a single trailing newline).
* The `GitHubProvider.__init__` URL parse (github/core.py) is
  `parseGitHubUrl`.
* `Provider._filter_file_paths` (provider_base.py) is `filterFilePaths`;
  the gitignore-style matching of the external `pathspec` library
  (`GitWildMatchPattern.match_file`) is modelled from the spec for
  slash-free, negation-free patterns: such a pattern matches a path iff it
  matches some path segment as an `fnmatch`-style glob.
* `LocalProvider.download_folder` (providers/local.py) and
  `GitHubProvider.download_folder` (providers/github/core.py) are
  `localDownloadFolder` / `ghDownloadFolder` over an explicit filesystem
  state `FS` (files with contents plus a set of directories; empty
  directories other than the tracked ones, file metadata and the parent
  directories implicitly created by writes are not modelled).  Network
  effects are parameters: the Git-Trees API response is a `TreeFetch`
  value and per-file raw-content fetching is a function
  `String → Option String` (`none` models a per-file failure, which the
  code logs and skips).
-/

/-! ## String primitives

The Lean library's `String.splitOn`, `String.startsWith`, … are defined by
well-founded recursion over byte positions, which the kernel cannot reduce
on concrete inputs; the structurally recursive character-list versions
below are used instead so that every embedded function evaluates by
`rfl`/`decide`. -/

/-- Split a character list at every occurrence of `c` (Python
`s.split(c)` for a one-character separator: consecutive separators yield
empty pieces, the empty string yields `[""]`). -/
def splitCharAux (c : Char) : List Char → List Char → List (List Char)
  | [], acc => [acc.reverse]
  | x :: xs, acc =>
    if x = c then acc.reverse :: splitCharAux c xs []
    else splitCharAux c xs (x :: acc)

/-- Python `s.split(c)` for a one-character separator. -/
def strSplitChar (c : Char) (s : String) : List String :=
  (splitCharAux c s.data []).map String.mk

/-- Python `s.startswith(p)`. -/
def strStartsWith (p s : String) : Bool := List.isPrefixOf p.data s.data

/-- Python `s.endswith(suffix)`. -/
def strEndsWith (suffix s : String) : Bool := List.isSuffixOf suffix.data s.data

/-- Python `s.rstrip(c)` for a single strip character. -/
def strDropRightWhile (p : Char → Bool) (s : String) : String :=
  String.mk (s.data.reverse.dropWhile p).reverse

/-- Drop the last `n` characters. -/
def strDropRight (n : Nat) (s : String) : String :=
  String.mk (s.data.take (s.data.length - n))

/-- Drop the first `n` characters (Python `s[n:]`). -/
def strDrop (n : Nat) (s : String) : String := String.mk (s.data.drop n)

/-- Python `c in s` for a single character. -/
def strContainsChar (c : Char) (s : String) : Bool := s.data.any (· = c)

/-- Substring search helper. -/
def containsSubAux (nd : List Char) : List Char → Bool
  | [] => nd.isEmpty
  | c :: cs => List.isPrefixOf nd (c :: cs) || containsSubAux nd cs

/-- Python `needle in s` on strings (substring containment; the empty
needle is always contained). -/
def strContainsSub (needle s : String) : Bool :=
  if needle = "" then true else containsSubAux needle.data s.data

/-- Decimal digit accumulation for `strToNat`. -/
def digitsToNatAux : List Char → Nat → Option Nat
  | [], acc => some acc
  | c :: cs, acc =>
    if c.isDigit then digitsToNatAux cs (acc * 10 + (c.toNat - '0'.toNat))
    else none

/-- Parse a non-empty all-digit string. -/
def strToNat (s : String) : Option Nat :=
  match s.data with
  | [] => none
  | _ => digitsToNatAux s.data 0

/-- Python `s.strip()` (ASCII whitespace; exotic unicode whitespace is
not modelled). -/
def strTrim (s : String) : String :=
  String.mk ((s.data.dropWhile Char.isWhitespace).reverse.dropWhile
    Char.isWhitespace).reverse

/-- Python runtime exceptions raised by the embedded code paths.
`valueError` carries the message built at the raise site (for
`int()`-conversion failures and tuple unpacking the constant part of the
CPython message is kept; the interpolated argument is omitted). -/
inductive PyErr
  | typeError
  | keyError
  | indexError
  | attributeError
  | valueError (msg : String)
deriving DecidableEq, Repr

/-- Python dict keys occurring in this code base: strings (decoded JSON)
and ints (creatable by `config[array_key][index] = value` when
`config[array_key]` is a dict). -/
inductive PyKey
  | str (s : String)
  | int (n : Int)
deriving DecidableEq, Repr

/-- JSON-like Python values handled by `Config`. -/
inductive PyVal
  | noneV
  | bool (b : Bool)
  | int (n : Int)
  | str (s : String)
  | list (xs : List PyVal)
  | dict (kvs : List (PyKey × PyVal))

/-- Python dict lookup (`kvs[k]` / `kvs.get(k)`): first binding of the key.
Insertion-ordered association lists with unique keys model Python dicts. -/
def dictLookup (kvs : List (PyKey × PyVal)) (k : PyKey) : Option PyVal :=
  match kvs with
  | [] => none
  | (k', v) :: rest => if k' = k then some v else dictLookup rest k

/-- Python dict assignment `d[k] = v`: updates the existing binding in
place (keeping its position) or appends a new binding at the end. -/
def dictSet (kvs : List (PyKey × PyVal)) (k : PyKey) (v : PyVal) :
    List (PyKey × PyVal) :=
  match kvs with
  | [] => [(k, v)]
  | (k', v') :: rest =>
    if k' = k then (k', v) :: rest else (k', v') :: dictSet rest k v

/-- Python `v == s` for a string literal `s`: `str.__eq__` returns
`False` against any non-string value. -/
def pyEqStr (v : PyVal) (s : String) : Bool :=
  match v with
  | .str t => t = s
  | _ => false

/-- Python truthiness (`bool(v)`). -/
def pyTruthy (v : PyVal) : Bool :=
  match v with
  | .noneV => false
  | .bool b => b
  | .int n => n != 0
  | .str s => !(s = "")
  | .list xs => !xs.isEmpty
  | .dict kvs => !kvs.isEmpty

/-- Python `list[i]` with negative-index wraparound; `none` models
`IndexError`. -/
def pyListGet (xs : List PyVal) (i : Int) : Option PyVal :=
  let j : Int := if i < 0 then i + xs.length else i
  if 0 ≤ j ∧ j < (xs.length : Int) then xs.get? j.toNat else none

/-- Python `s[i]` on a string (returns a one-character string);
`none` models `IndexError`. -/
def pyStrGet (s : String) (i : Int) : Option String :=
  let cs := s.toList
  let j : Int := if i < 0 then i + cs.length else i
  if 0 ≤ j ∧ j < (cs.length : Int) then (cs.get? j.toNat).map (String.mk [·])
  else none

/-- Total list store at a (known in-range, after `pyListGet` succeeded)
Python index; out-of-range indices leave the list unchanged. -/
def pyListStore (xs : List PyVal) (i : Int) (v : PyVal) : List PyVal :=
  let j : Int := if i < 0 then i + xs.length else i
  if 0 ≤ j ∧ j < (xs.length : Int) then xs.set j.toNat v else xs

/-- Python `list[i] = v`; `IndexError` when out of range. -/
def pyListSet (xs : List PyVal) (i : Int) (v : PyVal) :
    Except PyErr (List PyVal) :=
  let j : Int := if i < 0 then i + xs.length else i
  if 0 ≤ j ∧ j < (xs.length : Int) then .ok (xs.set j.toNat v)
  else .error .indexError

/-- Python `k in v` for a string `k`: dict key containment, list
membership by equality, substring test on strings, `TypeError` on
non-containers. -/
def pyContainsStr (v : PyVal) (k : String) : Except PyErr Bool :=
  match v with
  | .dict kvs => .ok (dictLookup kvs (.str k)).isSome
  | .list xs => .ok (xs.any (pyEqStr · k))
  | .str s => .ok (strContainsSub k s)
  | _ => .error .typeError

/-- Python `v[k] = x` for a string key: only dicts support it here
(list/str indexing with a string key and item assignment on scalars raise
`TypeError`). -/
def pySetItemStr (v : PyVal) (k : String) (x : PyVal) : Except PyErr PyVal :=
  match v with
  | .dict kvs => .ok (.dict (dictSet kvs (.str k) x))
  | _ => .error .typeError

/-- Python `v[k]` for a string key: dict lookup (`KeyError` when absent),
`TypeError` on anything else. -/
def pyGetItemStr (v : PyVal) (k : String) : Except PyErr PyVal :=
  match v with
  | .dict kvs =>
    match dictLookup kvs (.str k) with
    | some x => .ok x
    | none => .error .keyError
  | _ => .error .typeError

/-- In-place dict store used at write-back points where the receiver is
known to be a dict (modelling Python's aliasing mutation); identity on
non-dicts (unreachable at its call sites). -/
def dsetD (v : PyVal) (k : String) (x : PyVal) : PyVal :=
  match v with
  | .dict kvs => .dict (dictSet kvs (.str k) x)
  | _ => v

/-- Lookup used on values known to be dicts. -/
def dgetD (v : PyVal) (k : String) : Option PyVal :=
  match v with
  | .dict kvs => dictLookup kvs (.str k)
  | _ => none

/-- Python `int(s)`: strips surrounding whitespace, accepts an optional
sign followed by decimal digits (underscore digit grouping and non-ASCII
digits are not modelled; no claim exercises them). -/
def pyIntParse (s : String) : Option Int :=
  let t := strTrim s
  let signDigits : Int × String :=
    if strStartsWith "-" t then (-1, strDrop 1 t)
    else if strStartsWith "+" t then (1, strDrop 1 t)
    else (1, t)
  match strToNat signDigits.2 with
  | some n => some (signDigits.1 * n)
  | none => none

/-- Segment analysis shared by `Config.get` and `Config.set`
(config.py lines 23-25 / 44-46 / 58-60):
`if "[" in k and "]" in k: array_key, index = k.split("["); index =
int(index.rstrip("]"))`.  Result: `none` for a plain key segment,
`some (array_key, index)` for an indexed segment; errors are the
`ValueError`s of tuple unpacking (more than one `[`) and of `int()`. -/
def segIndex (k : String) : Except PyErr (Option (String × Int)) :=
  if strContainsChar '[' k && strContainsChar ']' k then
    match strSplitChar '[' k with
    | [arrayKey, idxPart] =>
      match pyIntParse (strDropRightWhile (· = ']') idxPart) with
      | some i => .ok (some (arrayKey, i))
      | none => .error (.valueError "invalid literal for int() with base 10")
    | _ => .error (.valueError "too many values to unpack (expected 2)")
  else .ok none

/-- `Config.get` traversal loop (config.py lines 20-36), after
`key.split(".")`.  Mirrors the Python loop: on a dict cursor a plain
segment does `value = value.get(k, default)` (so traversal continues into
the default when the key is missing), an indexed segment returns the
default unless `array_key` maps to a list with `index < len`, and a
non-dict cursor returns the default.  Errors are the `ValueError`s of
`segIndex` and `IndexError` for negative out-of-range indices. -/
def getSegs (value : PyVal) (segs : List String) (dflt : PyVal) :
    Except PyErr PyVal :=
  match segs with
  | [] => .ok value
  | k :: rest =>
    match value with
    | .dict kvs =>
      match segIndex k with
      | .error e => .error e
      | .ok none => getSegs ((dictLookup kvs (.str k)).getD dflt) rest dflt
      | .ok (some (ak, i)) =>
        match dictLookup kvs (.str ak) with
        | some (.list xs) =>
          if (xs.length : Int) ≤ i then .ok dflt
          else
            match pyListGet xs i with
            | some x => getSegs x rest dflt
            | none => .error .indexError
        | _ => .ok dflt
    | _ => .ok dflt

/-- The padding loop of `Config.set`
(`while len(config[array_key]) <= index: config[array_key].append({})`)
on a list: appends empty dicts until the length exceeds `i`. -/
def padTo (xs : List PyVal) (i : Int) : List PyVal :=
  xs ++ List.replicate (i + 1 - (xs.length : Int)).toNat (.dict [])

/-- `Config.set`'s array-slot preparation (config.py lines 47-50 and
61-64): `if array_key not in config: config[array_key] = []` followed by
the padding loop.  Returns the updated node and the value of
`config[array_key]` after padding (or the Python error raised: dicts and
strings have no `append`, so a too-short dict/str slot raises
`AttributeError`; `len()` of a scalar raises `TypeError`). -/
def setupArraySlot (config : PyVal) (ak : String) (i : Int) :
    PyVal × Except PyErr PyVal :=
  match pyContainsStr config ak with
  | .error e => (config, .error e)
  | .ok b =>
    match (if b then .ok config else pySetItemStr config ak (.list [])) with
    | .error e => (config, .error e)
    | .ok c1 =>
      match pyGetItemStr c1 ak with
      | .error e => (c1, .error e)
      | .ok child =>
        match child with
        | .list xs =>
          let xs' := padTo xs i
          (dsetD c1 ak (.list xs'), .ok (.list xs'))
        | .dict dkvs =>
          if (dkvs.length : Int) ≤ i then (c1, .error .attributeError)
          else (c1, .ok (.dict dkvs))
        | .str s =>
          if (s.length : Int) ≤ i then (c1, .error .attributeError)
          else (c1, .ok (.str s))
        | _ => (c1, .error .typeError)

/-- Last-segment indexed assignment of `Config.set` (config.py lines
58-65): prepare the array slot, then `config[array_key][index] = value`.
A dict slot accepts an int key; a string slot raises `TypeError`. -/
def setLastIndexed (config : PyVal) (ak : String) (i : Int) (v : PyVal) :
    PyVal × Option PyErr :=
  match setupArraySlot config ak i with
  | (c, .error e) => (c, some e)
  | (c, .ok (.list xs)) =>
    match pyListSet xs i v with
    | .ok ys => (dsetD c ak (.list ys), none)
    | .error e => (c, some e)
  | (c, .ok (.dict dkvs)) => (dsetD c ak (.dict (dictSet dkvs (.int i) v)), none)
  | (c, .ok _) => (c, some .typeError)

/-- `Config.set` traversal (config.py lines 40-67), after
`key.split(".")`, without the trailing re-validation.  Returns the
configuration state after the call together with the error raised, if
any: Python mutates `self._config` in place through aliases, so
mutations made before an error persist, which this encoding reproduces
by re-installing the recursively updated child in its parent slot.  For
a string child the recursion result is discarded: Python strings are
immutable and the embedded operations never change a string cursor. -/
def setSegs (config : PyVal) (segs : List String) (v : PyVal) :
    PyVal × Option PyErr :=
  match segs with
  | [] => (config, none)
  | [k] =>
    match segIndex k with
    | .error e => (config, some e)
    | .ok none =>
      match pySetItemStr config k v with
      | .ok c' => (c', none)
      | .error e => (config, some e)
    | .ok (some (ak, i)) => setLastIndexed config ak i v
  | k :: r2 :: rest =>
    match segIndex k with
    | .error e => (config, some e)
    | .ok none =>
      match pyContainsStr config k with
      | .error e => (config, some e)
      | .ok b =>
        match (if b then .ok config else pySetItemStr config k (.dict [])) with
        | .error e => (config, some e)
        | .ok c1 =>
          match pyGetItemStr c1 k with
          | .error e => (c1, some e)
          | .ok child =>
            let res := setSegs child (r2 :: rest) v
            (dsetD c1 k res.1, res.2)
    | .ok (some (ak, i)) =>
      match setupArraySlot config ak i with
      | (c, .error e) => (c, some e)
      | (c, .ok (.list xs)) =>
        match pyListGet xs i with
        | none => (c, some .indexError)
        | some elem =>
          let res := setSegs elem (r2 :: rest) v
          (dsetD c ak (.list (pyListStore xs i res.1)), res.2)
      | (c, .ok (.dict dkvs)) =>
        match dictLookup dkvs (.int i) with
        | none => (c, some .keyError)
        | some elem =>
          let res := setSegs elem (r2 :: rest) v
          (dsetD c ak (.dict (dictSet dkvs (.int i) res.1)), res.2)
      | (c, .ok (.str s)) =>
        match pyStrGet s i with
        | none => (c, some .indexError)
        | some ch =>
          let res := setSegs (.str ch) (r2 :: rest) v
          (c, res.2)
      | (c, .ok _) => (c, some .typeError)

/-- Default `providers` section installed by `_validate_config`. -/
def defaultProvidersVal : PyVal :=
  .dict [(.str "github", .list []), (.str "local", .list [])]

/-- Default `auth.github` section installed by `_validate_config`. -/
def defaultGithubAuth : PyVal := .dict [(.str "method", .str "auto")]

/-- The valid `auth.github.method` values (config.py line 156). -/
def validMethods : List String := ["default", "auto", "dotenv", "gitcli"]

/-- The GitHub-provider entry loop of `_validate_config`
(config.py lines 117-123). -/
def checkGithubEntries : List PyVal → Option PyErr
  | [] => none
  | .dict kvs :: rest =>
    if (dictLookup kvs (.str "name")).isSome then
      if (dictLookup kvs (.str "url")).isSome then checkGithubEntries rest
      else some (.valueError "GitHub provider must have a URL")
    else some (.valueError "GitHub provider must have a name")
  | _ :: _ => some (.valueError "GitHub provider must be a dictionary")

/-- The local-provider entry loop of `_validate_config`
(config.py lines 130-136). -/
def checkLocalEntries : List PyVal → Option PyErr
  | [] => none
  | .dict kvs :: rest =>
    if (dictLookup kvs (.str "name")).isSome then
      if (dictLookup kvs (.str "path")).isSome then checkLocalEntries rest
      else some (.valueError "Local provider must have a path")
    else some (.valueError "Local provider must have a name")
  | _ :: _ => some (.valueError "Local provider must be a dictionary")

/-- `Config._validate_config` (config.py lines 92-160).  The method
mutates `self._config` in place (auto-populating `providers`, its
`github`/`local` sub-keys, and the `auth` section) and raises
`ValueError` on structural violations; the returned pair is the
configuration state after the call (mutations made before a raise
persist) together with the error, if any. -/
def validateConfig (c0 : PyVal) : PyVal × Option PyErr :=
  match c0 with
  | .dict _ =>
    let c1 := if (dgetD c0 "providers").isSome then c0
              else dsetD c0 "providers" defaultProvidersVal
    match dgetD c1 "providers" with
    | some (.dict pkvs) =>
      let p1 := if (dictLookup pkvs (.str "github")).isSome then pkvs
                else dictSet pkvs (.str "github") (.list [])
      let p2 := if (dictLookup p1 (.str "local")).isSome then p1
                else dictSet p1 (.str "local") (.list [])
      let c2 := dsetD c1 "providers" (.dict p2)
      match dictLookup p2 (.str "github") with
      | some (.list ghs) =>
        match checkGithubEntries ghs with
        | some e => (c2, some e)
        | none =>
          match dictLookup p2 (.str "local") with
          | some (.list los) =>
            match checkLocalEntries los with
            | some e => (c2, some e)
            | none =>
              let c3 := if (dgetD c2 "auth").isSome then c2
                        else dsetD c2 "auth"
                          (.dict [(.str "github", defaultGithubAuth)])
              match dgetD c3 "auth" with
              | some (.dict akvs) =>
                let a1 := if (dictLookup akvs (.str "github")).isSome then akvs
                          else dictSet akvs (.str "github") defaultGithubAuth
                let c4 := dsetD c3 "auth" (.dict a1)
                match dictLookup a1 (.str "github") with
                | some (.dict gkvs) =>
                  let m := (dictLookup gkvs (.str "method")).getD (.str "auto")
                  if validMethods.any (pyEqStr m) then (c4, none)
                  else (c4, some (.valueError "Invalid auth method"))
                | some _ => (c4, some (.valueError "GitHub auth must be a dictionary"))
                | none => (c4, some (.valueError "GitHub auth must be a dictionary"))
              | some _ => (c3, some (.valueError "Auth must be a dictionary"))
              | none => (c3, some (.valueError "Auth must be a dictionary"))
          | _ => (c2, some (.valueError "Local providers must be a list"))
      | _ => (c2, some (.valueError "GitHub providers must be a list"))
    | some _ => (c1, some (.valueError "Providers must be a dictionary"))
    | none => (c1, some (.valueError "Providers must be a dictionary"))
  | _ => (c0, some (.valueError "Configuration must be a dictionary"))

/-- `Config.get(key, default)` (config.py lines 15-36). -/
def configGet (cfg : PyVal) (key : String) (dflt : PyVal) :
    Except PyErr PyVal :=
  getSegs cfg (strSplitChar '.' key) dflt

/-- `Config.set(key, value)` (config.py lines 38-69): traversal/mutation
followed by `self._validate_config()`; if the traversal raises,
validation is not reached, and in either case the returned state is the
configuration as the caller now observes it. -/
def configSet (cfg : PyVal) (key : String) (v : PyVal) :
    PyVal × Option PyErr :=
  match setSegs cfg (strSplitChar '.' key) v with
  | (c1, some e) => (c1, some e)
  | (c1, none) => validateConfig c1

/-- `Config.__init__(config_data)` (config.py lines 11-13):
`self._config = config_data or {}` then `self._validate_config()`. -/
def configInit (d : PyVal) : PyVal × Option PyErr :=
  validateConfig (if pyTruthy d then d else .dict [])

/-- The configuration produced by validating an empty dict: the
auto-populated defaults. -/
def cfg0 : PyVal :=
  .dict [(.str "providers", defaultProvidersVal),
         (.str "auth", .dict [(.str "github", defaultGithubAuth)])]


/-! ## Token-shape validation (`github_auth._is_valid_github_token`) -/

/-- The character class `[a-zA-Z0-9_-]`. -/
def isTokenChar (c : Char) : Bool :=
  c.isAlpha || c.isDigit || c = '_' || c = '-'

/-- The character class `[a-f0-9]`. -/
def isHexLower (c : Char) : Bool :=
  ('a' ≤ c && c ≤ 'f') || c.isDigit

/-- Python `re.match(r"^[cls]+$", s)` as a Boolean: one or more class
characters spanning the string, where `$` also matches just before a
single trailing newline. -/
def reMatchClassPlus (cls : Char → Bool) (s : String) : Bool :=
  (!(s = "") && s.toList.all cls)
    || (strEndsWith "\n" s && !(strDropRight 1 s = "")
        && (strDropRight 1 s).toList.all cls)

/-- Python `re.match(r"^[a-f0-9]{40}$", s)` as a Boolean (`$` again also
matches just before a single trailing newline). -/
def reMatchHex40 (s : String) : Bool :=
  (s.length = 40 && s.toList.all isHexLower)
    || (s.length = 41 && strEndsWith "\n" s
        && (strDropRight 1 s).toList.all isHexLower)

/-- The new-format token prefixes (github_auth.py line 148). -/
def githubPrefixes : List String := ["ghp_", "gho_", "ghu_", "ghs_", "ghr_"]

/-- `_is_valid_github_token` (github_auth.py lines 129-167). -/
def isValidGithubToken (token : String) : Bool :=
  if token = "" || token.length < 20 then false
  else if githubPrefixes.any (strStartsWith · token) then
    decide (36 ≤ token.length)
  else if token.length = 40 && reMatchHex40 token then true
  else if strStartsWith "github_pat_" token then decide (50 ≤ token.length)
  else if 20 ≤ token.length && reMatchClassPlus isTokenChar token then true
  else false

/-! ## GitHub URL parsing (`GitHubProvider.__init__`) -/

/-- The URL check of `GitHubProvider.__init__` (github/core.py lines
22-29): `parts = url.rstrip("/").split("/")`; raise `ValueError` when
`len(parts) < 5 or parts[2] != "github.com"`; otherwise
`owner, repo = parts[3], parts[4]`. -/
def parseGitHubUrl (url : String) : Except PyErr (String × String) :=
  let parts := strSplitChar '/' (strDropRightWhile (· = '/') url)
  if parts.length < 5 ∨ ¬ parts.get? 2 = some "github.com" then
    .error (.valueError
      "Invalid GitHub URL format. Expected: https://github.com/owner/repo")
  else .ok ((parts.get? 3).getD "", (parts.get? 4).getD "")

/-! ## Pattern filtering (`Provider._filter_file_paths`) -/

/-- `fnmatch`-style glob on a single name, with `*` and `?` wildcards
(character classes `[seq]` are not modelled; no pattern in this
repository uses them).  Implemented with explicit fuel so that the
definition is structurally recursive; `pattern.length + name.length + 1`
steps always suffice because every step shortens the combined input. -/
def globMatchAux : Nat → List Char → List Char → Bool
  | 0, _, _ => false
  | _ + 1, [], [] => true
  | _ + 1, [], _ :: _ => false
  | n + 1, '*' :: ps, [] => globMatchAux n ps []
  | n + 1, '*' :: ps, c :: cs =>
    globMatchAux n ps (c :: cs) || globMatchAux n ('*' :: ps) cs
  | _ + 1, '?' :: _ps, [] => false
  | n + 1, '?' :: ps, _c :: cs => globMatchAux n ps cs
  | _ + 1, _p :: _ps, [] => false
  | n + 1, p :: ps, c :: cs => p = c && globMatchAux n ps cs

/-- Glob match of a pattern against a single path segment / file name. -/
def globMatch (pattern name : String) : Bool :=
  globMatchAux (pattern.length + name.length + 1) pattern.toList name.toList

/-- Modelled from the spec: gitignore-style matching as performed by the
external `pathspec` library's `GitWildMatchPattern.match_file`, for the
patterns this repository uses (no `/`, no `!` negation, no `**`): such a
pattern matches a relative path iff it matches one of the path's
segments — a matched directory segment excludes everything below it and
a matched final segment is the file itself. -/
def gitWildMatchFile (pattern path : String) : Bool :=
  (strSplitChar '/' path).any (globMatch pattern)

/-- `PathSpec.match_file` over a pattern list (no negation patterns:
match iff some pattern matches). -/
def matchAnyPattern (patterns : List String) (path : String) : Bool :=
  patterns.any (gitWildMatchFile · path)

/-- `Provider._filter_file_paths` (provider_base.py lines 105-126):
empty input short-circuits; include patterns are applied first (only
when the include set is non-empty), then exclude patterns (only when
non-empty). -/
def filterFilePaths (includePatterns excludePatterns : List String)
    (filePaths : List String) : List String :=
  if filePaths.isEmpty then []
  else
    let files := filePaths
    let files :=
      if includePatterns.isEmpty then files
      else files.filter (fun f => matchAnyPattern includePatterns f)
    if excludePatterns.isEmpty then files
    else files.filter (fun f => !matchAnyPattern excludePatterns f)

/-- The default exclude patterns of `Provider.__init__`
(provider_base.py line 66). -/
def defaultExcludePatterns : List String := [".git", "__pycache__", "*.pyc"]

/-- `_matches_pattern` (provider_base.py lines 96-103): `*` always
matches, otherwise `fnmatch` of the file name against the pattern. -/
def matchesPattern (filename pattern : String) : Bool :=
  if pattern = "*" then true else globMatch pattern filename

/-! ## Filesystem state and the two `download_folder` variants -/

/-- Filesystem state: files (full path, content) and the directories
known to exist.  Paths are plain strings joined with `/`.  Empty
directories created implicitly by writes, file metadata, and the parent
chain of `mkdir(parents=True)` are not modelled; a directory "exists"
iff it is in `dirs`. -/
structure FS where
  files : List (String × String)
  dirs : List String
deriving DecidableEq, Repr

/-- Read a file's content. -/
def fsGetFile (fs : FS) (p : String) : Option String :=
  (fs.files.find? (fun e => e.1 == p)).map (·.2)

/-- Write (create or overwrite) a file. -/
def fsWriteFile (fs : FS) (p : String) (c : String) : FS :=
  { fs with files := (p, c) :: fs.files.filter (fun e => !(e.1 == p)) }

/-- `Path.mkdir(parents=True, exist_ok=True)` on the target directory
(`Provider._ensure_target_dir`). -/
def fsMkdir (fs : FS) (d : String) : FS :=
  if fs.dirs.contains d then fs else { fs with dirs := d :: fs.dirs }

/-- `p` lies strictly below directory `d`. -/
def underDir (d p : String) : Bool := strStartsWith (d ++ "/") p

/-- Directory existence (`Path.exists` for the tracked directories). -/
def fsDirExists (fs : FS) (d : String) : Bool := fs.dirs.contains d

/-- The `clean` loop of both `download_folder` variants: every entry
directly under the target directory is unlinked (files) or removed
recursively (directories), i.e. every file and directory strictly below
the target disappears. -/
def fsCleanDir (fs : FS) (d : String) : FS :=
  { files := fs.files.filter (fun e => !underDir d e.1),
    dirs := fs.dirs.filter (fun x => !underDir d x) }

/-- The relative path of `p` below `base`, when `p` lies below it. -/
def relUnder (base p : String) : Option String :=
  if strStartsWith (base ++ "/") p then some (strDrop (base ++ "/").length p)
  else none

/-- The last `/`-segment of a relative path (the file name). -/
def lastSegment (rel : String) : String :=
  ((strSplitChar '/' rel).getLast?).getD rel

/-- The `Path.glob` pattern selection of `LocalProvider.download_folder`
(local.py lines 39-55): recursive mode uses `**/*` (everything) or
`**/{pattern}` (file name matched at any depth); non-recursive mode uses
`*` (direct children) or the pattern on direct children. -/
def globSelect (pattern : String) (recursive : Bool) (rel : String) : Bool :=
  if recursive then
    if pattern = "*" then true else globMatch pattern (lastSegment rel)
  else
    (!(strContainsChar '/' rel)) && (pattern = "*" || globMatch pattern rel)

/-- File enumeration of `LocalProvider.download_folder`: all files below
`base` whose relative path passes the glob selection, in stored order. -/
def localEnumerate (fs : FS) (base : String) (pattern : String)
    (recursive : Bool) : List String :=
  fs.files.filterMap (fun e =>
    match relUnder base e.1 with
    | some rel => if globSelect pattern recursive rel then some rel else none
    | none => none)

/-- The copy loop of `LocalProvider.download_folder` (local.py lines
61-72): each file is copied from the live filesystem state; a per-file
failure (source unreadable, modelled as the source file being absent) is
logged and skipped. -/
def localCopyLoop (base target : String) :
    List String → FS → List String × FS
  | [], fs => ([], fs)
  | rel :: rest, fs =>
    match fsGetFile fs (base ++ "/" ++ rel) with
    | some c =>
      let fs' := fsWriteFile fs (target ++ "/" ++ rel) c
      let r := localCopyLoop base target rest fs'
      (rel :: r.1, r.2)
    | none => localCopyLoop base target rest fs

/-- The configuration of a constructed `LocalProvider`. -/
structure LocalProviderM where
  enabled : Bool
  basePath : String
  includePatterns : List String
  excludePatterns : List String

/-- `LocalProvider.download_folder` (local.py lines 16-78): disabled or
missing source → empty result with no side effect; ensure the target
directory; clean it when requested; enumerate; filter; copy. -/
def localDownloadFolder (p : LocalProviderM) (fs0 : FS) (targetDir : String)
    (filePattern : String) (recursive clean : Bool) : List String × FS :=
  if !p.enabled || !fsDirExists fs0 p.basePath then ([], fs0)
  else
    let fs1 := fsMkdir fs0 targetDir
    let fs2 := if clean && fsDirExists fs1 targetDir then fsCleanDir fs1 targetDir
               else fs1
    let matching := localEnumerate fs2 p.basePath filePattern recursive
    let filtered := filterFilePaths p.includePatterns p.excludePatterns matching
    localCopyLoop p.basePath targetDir filtered fs2

/-- One entry of the Git-Trees API response. -/
structure TreeEntry where
  typ : String
  path : String

/-- Outcome of the tree-enumeration request of
`GitHubProvider.download_folder`: a network/HTTP/parse failure (any
exception inside the `try` block), a response without a `"tree"` key, or
the list of entries. -/
inductive TreeFetch
  | failure
  | missingTreeKey
  | ok (entries : List TreeEntry)

/-- The configuration of a constructed `GitHubProvider`. -/
structure GitHubProviderM where
  enabled : Bool
  resourceDir : String
  includePatterns : List String
  excludePatterns : List String
  selfTargetDir : Option String

/-- Candidate selection of `GitHubProvider.download_folder`
(github/core.py lines 94-124): blob entries below `resource_dir/`
(everything when `resource_dir` is empty), non-empty relative path,
top-level only when not recursive, file name matched against the
pattern. -/
def ghCandidates (entries : List TreeEntry) (resourceDir : String)
    (filePattern : String) (recursive : Bool) : List String :=
  let pfx := if !(resourceDir = "") then resourceDir ++ "/" else ""
  entries.filterMap (fun it =>
    if it.typ = "blob" then
      if pfx = "" || strStartsWith pfx it.path then
        let rel := if !(pfx = "") then strDrop pfx.length it.path else it.path
        if rel = "" then none
        else if !recursive && strContainsChar '/' rel then none
        else if matchesPattern (lastSegment rel) filePattern then some rel
        else none
      else none
    else none)

/-- The download loop of `GitHubProvider.download_folder` (github/core.py
lines 129-136): fetch each file's raw content (`none` models a per-file
failure, logged and skipped) and save it under the target
(`_save_file`'s own failure path is not modelled; it returns `True`). -/
def ghCopyLoop (fetch : String → Option String) (target : String) :
    List String → FS → List String × FS
  | [], fs => ([], fs)
  | rel :: rest, fs =>
    match fetch rel with
    | some c =>
      let fs' := fsWriteFile fs (target ++ "/" ++ rel) c
      let r := ghCopyLoop fetch target rest fs'
      (rel :: r.1, r.2)
    | none => ghCopyLoop fetch target rest fs

/-- A scalar (non-mapping, non-sequence) Python value. -/
def isScalar : PyVal → Bool
  | .noneV => true
  | .bool _ => true
  | .int _ => true
  | .str _ => true
  | .list _ => false
  | .dict _ => false

/-- The segment parses without an exception (balanced-bracket analysis
succeeds). -/
def segOk (k : String) : Bool :=
  match segIndex k with
  | .ok _ => true
  | .error _ => false

/-- A well-formed path segment: parses, and a bracketed index is
non-negative. -/
def wfSeg (k : String) : Bool :=
  match segIndex k with
  | .ok none => true
  | .ok (some (_, i)) => decide (0 ≤ i)
  | .error _ => false

/-- The element `Config.set`'s traversal descends into at an indexed
segment after padding: the existing element when the index is in range,
a fresh empty dict otherwise. -/
def padElem (xs : List PyVal) (i : Int) : PyVal :=
  (pyListGet (padTo xs i) i).getD (.dict [])

/-- A path (as a segment list) is valid for a configuration in the sense
of the spec's path addressing: every segment is applied to a mapping
cursor, a bracketed index is non-negative, and the array key of an
indexed segment is absent or bound to a sequence at its traversal
point.  Mirrors `setSegs`'s traversal, descending through vivified empty
dicts for missing keys and through `padElem` for indexed segments. -/
def validFor : PyVal → List String → Bool
  | .dict _, [] => false
  | .dict kvs, [k] =>
    match segIndex k with
    | .ok none => true
    | .ok (some (ak, i)) =>
      decide (0 ≤ i) &&
        (match dictLookup kvs (.str ak) with
         | none => true
         | some (.list _) => true
         | some _ => false)
    | .error _ => false
  | .dict kvs, k :: r2 :: rest =>
    match segIndex k with
    | .ok none =>
      (match dictLookup kvs (.str k) with
       | none => validFor (.dict []) (r2 :: rest)
       | some child => validFor child (r2 :: rest))
    | .ok (some (ak, i)) =>
      decide (0 ≤ i) &&
        (match dictLookup kvs (.str ak) with
         | none => validFor (.dict []) (r2 :: rest)
         | some (.list xs) => validFor (padElem xs i) (r2 :: rest)
         | some _ => false)
    | .error _ => false
  | _, _ => false

/-- The path traversal of `Config.set` reaches, at an intermediate
segment, an already-present scalar value (a plain key bound to a scalar,
or an in-range sequence element that is a scalar), with the remaining
segments parseable.  Mirrors `setSegs`'s traversal. -/
def meetsScalar : PyVal → List String → Bool
  | .dict kvs, k :: r2 :: rest =>
    match segIndex k with
    | .ok none =>
      (match dictLookup kvs (.str k) with
       | some child =>
         if isScalar child then (r2 :: rest).all segOk
         else meetsScalar child (r2 :: rest)
       | none => false)
    | .ok (some (ak, i)) =>
      (match dictLookup kvs (.str ak) with
       | some (.list xs) =>
         if (xs.length : Int) ≤ i then false
         else
           match pyListGet xs i with
           | some elem =>
             if isScalar elem then (r2 :: rest).all segOk
             else meetsScalar elem (r2 :: rest)
           | none => false
       | _ => false)
    | .error _ => false
  | _, _ => false

/-- Functional specification of `Config.set`'s successful mutation on a
path valid for the configuration: the value stored at the path, with
missing intermediate mappings vivified as empty dicts and sequences
padded with empty dicts up to the index.  `setSegs` is proved to compute
exactly this on valid paths. -/
def setSpec : PyVal → List String → PyVal → PyVal
  | .dict kvs, [k], v =>
    match segIndex k with
    | .ok none => .dict (dictSet kvs (.str k) v)
    | .ok (some (ak, i)) =>
      match dictLookup kvs (.str ak) with
      | some (.list xs) =>
        .dict (dictSet kvs (.str ak) (.list ((padTo xs i).set i.toNat v)))
      | _ => .dict (dictSet kvs (.str ak) (.list ((padTo [] i).set i.toNat v)))
    | .error _ => .dict kvs
  | .dict kvs, k :: r2 :: rest, v =>
    match segIndex k with
    | .ok none =>
      match dictLookup kvs (.str k) with
      | some child => .dict (dictSet kvs (.str k) (setSpec child (r2 :: rest) v))
      | none => .dict (dictSet kvs (.str k) (setSpec (.dict []) (r2 :: rest) v))
    | .ok (some (ak, i)) =>
      match dictLookup kvs (.str ak) with
      | some (.list xs) =>
        .dict (dictSet kvs (.str ak)
          (.list ((padTo xs i).set i.toNat
            (setSpec (padElem xs i) (r2 :: rest) v))))
      | _ =>
        .dict (dictSet kvs (.str ak)
          (.list ((padTo [] i).set i.toNat
            (setSpec (padElem [] i) (r2 :: rest) v))))
    | .error _ => .dict kvs
  | c, _, _ => c

/-- `GitHubProvider.download_folder` (github/core.py lines 49-142):
disabled → empty result without side effects; fall back to the
configured `target_dir` when the argument is empty; ensure and
optionally clean the target (before the tree request); any failure of
the tree enumeration returns the empty list with the clean already
applied; otherwise select, filter and download. -/
def ghDownloadFolder (p : GitHubProviderM) (tree : TreeFetch)
    (fetch : String → Option String) (fs0 : FS) (targetDir : String)
    (filePattern : String) (recursive clean : Bool) : List String × FS :=
  if !p.enabled then ([], fs0)
  else
    let target :=
      if targetDir = "" ∧ (p.selfTargetDir.getD "") ≠ "" then
        p.selfTargetDir.getD ""
      else targetDir
    let fs1 := fsMkdir fs0 target
    let fs2 := if clean && fsDirExists fs1 target then fsCleanDir fs1 target
               else fs1
    match tree with
    | .failure => ([], fs2)
    | .missingTreeKey => ([], fs2)
    | .ok entries =>
      let resourceFiles := ghCandidates entries p.resourceDir filePattern recursive
      let filtered := filterFilePaths p.includePatterns p.excludePatterns
        resourceFiles
      ghCopyLoop fetch target filtered fs2

/-! ## Supporting lemmas -/

theorem dictLookup_cons_eq {k' k : PyKey} {v' : PyVal}
    {rest : List (PyKey × PyVal)} (h : k' = k) :
    dictLookup ((k', v') :: rest) k = some v' := by
  simp only [dictLookup, if_pos h]

theorem dictLookup_cons_ne {k' k : PyKey} {v' : PyVal}
    {rest : List (PyKey × PyVal)} (h : ¬ k' = k) :
    dictLookup ((k', v') :: rest) k = dictLookup rest k := by
  simp only [dictLookup, if_neg h]

theorem dictSet_cons_eq {k' k : PyKey} {v' v : PyVal}
    {rest : List (PyKey × PyVal)} (h : k' = k) :
    dictSet ((k', v') :: rest) k v = (k', v) :: rest := by
  simp only [dictSet, if_pos h]

theorem dictSet_cons_ne {k' k : PyKey} {v' v : PyVal}
    {rest : List (PyKey × PyVal)} (h : ¬ k' = k) :
    dictSet ((k', v') :: rest) k v = (k', v') :: dictSet rest k v := by
  simp only [dictSet, if_neg h]

theorem dictLookup_dictSet (kvs : List (PyKey × PyVal)) (k : PyKey) (v : PyVal) :
    dictLookup (dictSet kvs k v) k = some v := by
  induction kvs with
  | nil => simp [dictSet, dictLookup]
  | cons e rest ih =>
    obtain ⟨k', v'⟩ := e
    by_cases hk : k' = k
    · rw [dictSet_cons_eq hk, dictLookup_cons_eq hk]
    · rw [dictSet_cons_ne hk, dictLookup_cons_ne hk]
      exact ih

theorem dictSet_dictSet (kvs : List (PyKey × PyVal)) (k : PyKey) (v w : PyVal) :
    dictSet (dictSet kvs k v) k w = dictSet kvs k w := by
  induction kvs with
  | nil => simp [dictSet]
  | cons e rest ih =>
    obtain ⟨k', v'⟩ := e
    by_cases hk : k' = k
    · rw [dictSet_cons_eq hk, dictSet_cons_eq hk, dictSet_cons_eq hk]
    · rw [dictSet_cons_ne hk, dictSet_cons_ne hk, dictSet_cons_ne hk, ih]

theorem dictSet_self (kvs : List (PyKey × PyVal)) (k : PyKey) (v : PyVal)
    (h : dictLookup kvs k = some v) : dictSet kvs k v = kvs := by
  induction kvs with
  | nil => cases h
  | cons e rest ih =>
    obtain ⟨k', v'⟩ := e
    by_cases hk : k' = k
    · rw [dictLookup_cons_eq hk] at h
      injection h with h
      rw [dictSet_cons_eq hk, h]
    · rw [dictLookup_cons_ne hk] at h
      rw [dictSet_cons_ne hk, ih h]

theorem lget_set_self (xs : List PyVal) (n : Nat) (a : PyVal)
    (h : n < xs.length) : (xs.set n a).get? n = some a := by
  induction xs generalizing n with
  | nil => cases h
  | cons x rest ih =>
    cases n with
    | zero => rfl
    | succ m =>
      simp only [List.set_cons_succ, List.get?_cons_succ]
      exact ih m (by simpa using h)

theorem lset_self (xs : List PyVal) (n : Nat) (a : PyVal)
    (h : xs.get? n = some a) : xs.set n a = xs := by
  induction xs generalizing n with
  | nil => cases h
  | cons x rest ih =>
    cases n with
    | zero =>
      injection h with h
      rw [List.set_cons_zero, h]
    | succ m =>
      simp only [List.set_cons_succ]
      rw [ih m (by simpa using h)]

theorem padTo_length (xs : List PyVal) (i : Int) :
    (padTo xs i).length = xs.length + (i + 1 - (xs.length : Int)).toNat := by
  unfold padTo
  rw [List.length_append, List.length_replicate]

theorem padTo_noop (xs : List PyVal) (i : Int) (h : i < (xs.length : Int)) :
    padTo xs i = xs := by
  unfold padTo
  have h2 : (i + 1 - (xs.length : Int)).toNat = 0 := by omega
  rw [h2]
  simp

theorem padTo_length_gt (xs : List PyVal) (i : Int) (_h : 0 ≤ i) :
    i < ((padTo xs i).length : Int) := by
  rw [padTo_length]
  omega

theorem pyListGet_nonneg (xs : List PyVal) (i : Int) (h0 : 0 ≤ i)
    (hlt : i < (xs.length : Int)) : pyListGet xs i = xs.get? i.toNat := by
  unfold pyListGet
  rw [if_neg (by omega : ¬ i < 0)]
  rw [if_pos ⟨h0, hlt⟩]

theorem pyListGet_padTo (xs : List PyVal) (i : Int) (h0 : 0 ≤ i) :
    pyListGet (padTo xs i) i = some (padElem xs i) := by
  have hlt := padTo_length_gt xs i h0
  have hn : i.toNat < (padTo xs i).length := by omega
  rw [pyListGet_nonneg _ _ h0 hlt]
  unfold padElem
  rw [pyListGet_nonneg _ _ h0 hlt]
  obtain ⟨x, hx⟩ : ∃ x, (padTo xs i).get? i.toNat = some x :=
    ⟨(padTo xs i).get ⟨i.toNat, hn⟩, List.get?_eq_some.mpr ⟨hn, rfl⟩⟩
  rw [hx]
  rfl

theorem padElem_nil (i : Int) (h0 : 0 ≤ i) : padElem [] i = .dict [] := by
  unfold padElem
  rw [pyListGet_nonneg _ _ h0 (padTo_length_gt [] i h0)]
  unfold padTo
  rw [List.nil_append]
  rw [List.get?_eq_getElem?, List.getElem?_replicate]
  simp only [List.length_nil, Nat.cast_zero, sub_zero]
  rw [if_pos (by omega)]
  rfl

theorem pyListSet_nonneg (xs : List PyVal) (i : Int) (v : PyVal) (h0 : 0 ≤ i)
    (hlt : i < (xs.length : Int)) :
    pyListSet xs i v = .ok (xs.set i.toNat v) := by
  unfold pyListSet
  rw [if_neg (by omega : ¬ i < 0)]
  rw [if_pos ⟨h0, hlt⟩]

theorem pyListStore_nonneg (xs : List PyVal) (i : Int) (v : PyVal) (h0 : 0 ≤ i)
    (hlt : i < (xs.length : Int)) :
    pyListStore xs i v = xs.set i.toNat v := by
  unfold pyListStore
  rw [if_neg (by omega : ¬ i < 0)]
  rw [if_pos ⟨h0, hlt⟩]

theorem reMatchHex40_len40 (t : String) (h : t.length = 40) :
    reMatchHex40 t = t.toList.all isHexLower := by
  unfold reMatchHex40
  rw [h]
  simp

theorem strStartsWith_append (a b : String) : strStartsWith a (a ++ b) = true := by
  unfold strStartsWith
  rw [String.data_append]
  exact List.isPrefixOf_iff_prefix.mpr (List.prefix_append _ _)

theorem underDir_append (d rest : String) : underDir d (d ++ "/" ++ rest) = true :=
  strStartsWith_append (d ++ "/") rest

theorem strAppend_left_cancel {a b c : String} (h : a ++ b = a ++ c) : b = c := by
  have hd : (a ++ b).data = (a ++ c).data := by rw [h]
  rw [String.data_append, String.data_append] at hd
  have h2 := List.append_cancel_left hd
  cases b; cases c
  exact congrArg String.mk h2

theorem find?_filterOut_none (d q : String) (h : underDir d q = true) :
    ∀ l : List (String × String),
      (l.filter (fun e => !underDir d e.1)).find? (fun e => e.1 == q) = none := by
  intro l
  induction l with
  | nil => rfl
  | cons e t ih =>
    rw [List.filter_cons]
    by_cases he : underDir d e.1 = true
    · rw [if_neg (by simp [he])]
      exact ih
    · rw [if_pos (by simp [he])]
      have hq : ¬ (e.1 == q) = true := by
        rw [beq_iff_eq]
        exact fun hqe => he (hqe ▸ h)
      rw [@List.find?_cons_of_neg _ (fun e => e.1 == q) e _ hq]
      exact ih

theorem fsGetFile_cleanDir (fs : FS) (d q : String) (h : underDir d q = true) :
    fsGetFile (fsCleanDir fs d) q = none := by
  unfold fsGetFile fsCleanDir
  rw [find?_filterOut_none d q h fs.files]
  rfl

theorem fsGetFile_mkdir (fs : FS) (d p : String) :
    fsGetFile (fsMkdir fs d) p = fsGetFile fs p := by
  unfold fsGetFile fsMkdir
  split <;> rfl

theorem fsDirExists_mkdir (fs : FS) (d : String) :
    fsDirExists (fsMkdir fs d) d = true := by
  unfold fsDirExists fsMkdir
  split
  · next h => exact h
  · simp [List.contains_cons]

theorem fsGetFile_write (fs : FS) (q c p : String) :
    fsGetFile (fsWriteFile fs q c) p =
      if p = q then some c else fsGetFile fs p := by
  unfold fsGetFile fsWriteFile
  by_cases hpq : p = q
  · subst hpq
    rw [if_pos rfl, List.find?_cons_of_pos _ (by simp)]
    rfl
  · rw [if_neg hpq, List.find?_cons_of_neg _ (by simp; exact fun h => hpq h.symm)]
    have : ∀ l : List (String × String),
        (l.filter (fun e => !(e.1 == q))).find? (fun e => e.1 == p) =
          l.find? (fun e => e.1 == p) := by
      intro l
      induction l with
      | nil => rfl
      | cons e t ih =>
        rw [List.filter_cons]
        by_cases he : e.1 = q
        · rw [if_neg (by simp [he])]
          rw [ih]
          rw [List.find?_cons_of_neg _ (by simp [he]; exact fun h => hpq (h ▸ he ▸ rfl))]
        · rw [if_pos (by simp [he])]
          by_cases hep : e.1 = p
          · rw [List.find?_cons_of_pos _ (by simp [hep]),
              List.find?_cons_of_pos _ (by simp [hep])]
          · rw [List.find?_cons_of_neg _ (by simp [hep]),
              List.find?_cons_of_neg _ (by simp [hep])]
            exact ih
    rw [this]

theorem ghCopyLoop_preserve (fetch : String → Option String) (target p0 : String) :
    ∀ (rels : List String) (fs : FS),
      (∀ rel ∈ (ghCopyLoop fetch target rels fs).1, ¬ target ++ "/" ++ rel = p0) →
      fsGetFile (ghCopyLoop fetch target rels fs).2 p0 = fsGetFile fs p0 := by
  intro rels
  induction rels with
  | nil => intro fs _; rfl
  | cons rel rest ih =>
    intro fs h
    unfold ghCopyLoop at h ⊢
    cases hf : fetch rel with
    | none =>
      rw [hf] at h
      exact ih fs h
    | some c =>
      rw [hf] at h
      simp only [List.mem_cons] at h
      have hhead : ¬ target ++ "/" ++ rel = p0 := h rel (Or.inl rfl)
      have htail := fun r hr => h r (Or.inr hr)
      rw [ih (fsWriteFile fs (target ++ "/" ++ rel) c) htail]
      rw [fsGetFile_write]
      rw [if_neg (fun hp => hhead (by rw [hp]))]

theorem localCopyLoop_preserve (base target p0 : String) :
    ∀ (rels : List String) (fs : FS),
      (∀ rel ∈ (localCopyLoop base target rels fs).1, ¬ target ++ "/" ++ rel = p0) →
      fsGetFile (localCopyLoop base target rels fs).2 p0 = fsGetFile fs p0 := by
  intro rels
  induction rels with
  | nil => intro fs _; rfl
  | cons rel rest ih =>
    intro fs h
    unfold localCopyLoop at h ⊢
    cases hf : fsGetFile fs (base ++ "/" ++ rel) with
    | none =>
      rw [hf] at h
      exact ih fs h
    | some c =>
      rw [hf] at h
      simp only [List.mem_cons] at h
      have hhead : ¬ target ++ "/" ++ rel = p0 := h rel (Or.inl rfl)
      have htail := fun r hr => h r (Or.inr hr)
      rw [ih (fsWriteFile fs (target ++ "/" ++ rel) c) htail]
      rw [fsGetFile_write]
      rw [if_neg (fun hp => hhead (by rw [hp]))]

theorem getSegs_wf_ok :
    ∀ (segs : List String) (value dflt : PyVal),
      segs.all wfSeg = true → ∃ r, getSegs value segs dflt = .ok r := by
  intro segs
  induction segs with
  | nil => exact fun value dflt _ => ⟨value, rfl⟩
  | cons k rest ih =>
    intro value dflt hwf
    simp only [List.all_cons, Bool.and_eq_true] at hwf
    obtain ⟨hk, hrest⟩ := hwf
    unfold wfSeg at hk
    cases value with
    | dict kvs =>
      simp only [getSegs]
      split
      · rename_i e heq
        rw [heq] at hk
        cases hk
      · exact ih _ dflt hrest
      · rename_i ak i heq
        rw [heq] at hk
        have h0 : (0 : Int) ≤ i := of_decide_eq_true hk
        split
        · rename_i xs hlk
          split
          · exact ⟨dflt, rfl⟩
          · rename_i hlen
            have hlt : i < (xs.length : Int) := by omega
            have hn : i.toNat < xs.length := by omega
            obtain ⟨x, hx⟩ : ∃ x, xs.get? i.toNat = some x :=
              ⟨xs.get ⟨i.toNat, hn⟩, List.get?_eq_some.mpr ⟨hn, rfl⟩⟩
            rw [pyListGet_nonneg xs i h0 hlt, hx]
            exact ih x dflt hrest
        · exact ⟨dflt, rfl⟩
    | noneV => exact ⟨dflt, rfl⟩
    | bool b => exact ⟨dflt, rfl⟩
    | int n => exact ⟨dflt, rfl⟩
    | str s => exact ⟨dflt, rfl⟩
    | list xs => exact ⟨dflt, rfl⟩

theorem setSegs_scalar (segs : List String) :
    ∀ (cfg v : PyVal), isScalar cfg = true → segs ≠ [] →
      segs.all segOk = true → setSegs cfg segs v = (cfg, some .typeError) := by
  intro cfg v hs hne hok
  match segs, hne with
  | [k], _ =>
    simp only [List.all_cons, List.all_nil, Bool.and_true] at hok
    unfold segOk at hok
    simp only [setSegs]
    split
    · rename_i e heq; rw [heq] at hok; cases hok
    · cases cfg with
      | noneV => rfl
      | bool b => rfl
      | int n => rfl
      | str s => rfl
      | list xs => exact Bool.noConfusion hs
      | dict kvs => exact Bool.noConfusion hs
    · rename_i ak i heq
      cases cfg with
      | noneV => rfl
      | bool b => rfl
      | int n => rfl
      | str s =>
        cases hb : strContainsSub ak s <;>
          simp [setLastIndexed, setupArraySlot, pyContainsStr, pySetItemStr,
            pyGetItemStr, hb]
      | list xs => exact Bool.noConfusion hs
      | dict kvs => exact Bool.noConfusion hs
  | k :: r2 :: rest, _ =>
    simp only [List.all_cons, Bool.and_eq_true] at hok
    obtain ⟨hok1, -⟩ := hok
    unfold segOk at hok1
    simp only [setSegs]
    split
    · rename_i e heq; rw [heq] at hok1; cases hok1
    · cases cfg with
      | noneV => rfl
      | bool b => rfl
      | int n => rfl
      | str s =>
        cases hb : strContainsSub k s <;>
          simp [pyContainsStr, pySetItemStr, pyGetItemStr, hb]
      | list xs => exact Bool.noConfusion hs
      | dict kvs => exact Bool.noConfusion hs
    · rename_i ak i heq
      cases cfg with
      | noneV => rfl
      | bool b => rfl
      | int n => rfl
      | str s =>
        cases hb : strContainsSub ak s <;>
          simp [setupArraySlot, pyContainsStr, pySetItemStr, pyGetItemStr, hb]
      | list xs => exact Bool.noConfusion hs
      | dict kvs => exact Bool.noConfusion hs

theorem setSegs_meetsScalar :
    ∀ (segs : List String) (cfg v : PyVal), meetsScalar cfg segs = true →
      (setSegs cfg segs v).2 = some .typeError := by
  intro segs
  induction segs with
  | nil => intro cfg v h; cases cfg <;> exact Bool.noConfusion h
  | cons k rest ih =>
    intro cfg v h
    cases rest with
    | nil => cases cfg <;> exact Bool.noConfusion h
    | cons r2 rest' =>
      cases cfg with
      | noneV => exact Bool.noConfusion h
      | bool b => exact Bool.noConfusion h
      | int n => exact Bool.noConfusion h
      | str s => exact Bool.noConfusion h
      | list xs => exact Bool.noConfusion h
      | dict kvs =>
        unfold meetsScalar at h
        simp only [setSegs]
        split
        · rename_i e heq; rw [heq] at h; cases h
        · rename_i heq
          rw [heq] at h
          cases hlk : dictLookup kvs (.str k) with
          | none => rw [hlk] at h; cases h
          | some child =>
            rw [hlk] at h
            dsimp only at h
            simp only [pyContainsStr, hlk, Option.isSome_some, if_true,
              pyGetItemStr]
            by_cases hsc : isScalar child = true
            · rw [if_pos hsc] at h
              rw [setSegs_scalar (r2 :: rest') child v hsc (by simp) h]
            · rw [if_neg hsc] at h
              exact ih child v h
        · rename_i ak i heq
          rw [heq] at h
          dsimp only at h
          cases hlk : dictLookup kvs (.str ak) with
          | none => rw [hlk] at h; cases h
          | some w =>
            rw [hlk] at h
            cases w with
            | noneV => cases h
            | bool b => cases h
            | int n => cases h
            | str s => cases h
            | dict kvs2 => cases h
            | list xs =>
              dsimp only at h
              by_cases hlen : (xs.length : Int) ≤ i
              · rw [if_pos hlen] at h; cases h
              · rw [if_neg hlen] at h
                cases hpg : pyListGet xs i with
                | none => rw [hpg] at h; cases h
                | some elem =>
                  rw [hpg] at h
                  dsimp only at h
                  have hpad : padTo xs i = xs := padTo_noop xs i (by omega)
                  simp only [setupArraySlot, pyContainsStr, hlk,
                    Option.isSome_some, if_true, pyGetItemStr, hpad, hpg]
                  by_cases hsc : isScalar elem = true
                  · rw [if_pos hsc] at h
                    rw [setSegs_scalar (r2 :: rest') elem v hsc (by simp) h]
                  · rw [if_neg hsc] at h
                    exact ih elem v h

theorem setSegs_validFor (segs : List String) :
    ∀ (cfg v : PyVal), validFor cfg segs = true →
      setSegs cfg segs v = (setSpec cfg segs v, none) := by
  induction segs with
  | nil => intro cfg v h; cases cfg <;> exact Bool.noConfusion h
  | cons k rest ih =>
    intro cfg v h
    cases cfg with
    | noneV => exact Bool.noConfusion h
    | bool b => exact Bool.noConfusion h
    | int n => exact Bool.noConfusion h
    | str s => exact Bool.noConfusion h
    | list xs => exact Bool.noConfusion h
    | dict kvs =>
      cases rest with
      | nil =>
        unfold validFor at h
        simp only [setSegs, setSpec]
        split
        · rename_i e heq
          rw [heq] at h
          cases h
        · rename_i heq
          rw [heq]
          rfl
        · rename_i ak i heq
          rw [heq] at h ⊢
          dsimp only at h ⊢
          simp only [Bool.and_eq_true, decide_eq_true_eq] at h
          obtain ⟨h0, hw⟩ := h
          cases hlk : dictLookup kvs (.str ak) with
          | none =>
            unfold setLastIndexed setupArraySlot
            simp only [pyContainsStr, hlk, Option.isSome_none,
              Bool.false_eq_true, if_false, pySetItemStr, pyGetItemStr,
              dictLookup_dictSet, dsetD, dictSet_dictSet,
              pyListSet_nonneg (padTo [] i) i v h0 (padTo_length_gt [] i h0)]
          | some w =>
            rw [hlk] at hw
            cases w with
            | noneV => cases hw
            | bool b => cases hw
            | int n => cases hw
            | str s => cases hw
            | dict kvs2 => cases hw
            | list xs =>
              unfold setLastIndexed setupArraySlot
              simp only [pyContainsStr, hlk, Option.isSome_some, if_true,
                pyGetItemStr, dsetD, dictSet_dictSet,
                pyListSet_nonneg (padTo xs i) i v h0 (padTo_length_gt xs i h0)]
      | cons r2 rest' =>
        unfold validFor at h
        simp only [setSegs, setSpec]
        split
        · rename_i e heq
          rw [heq] at h
          cases h
        · rename_i heq
          rw [heq] at h ⊢
          dsimp only at h ⊢
          cases hlk : dictLookup kvs (.str k) with
          | none =>
            rw [hlk] at h
            simp only [pyContainsStr, hlk, Option.isSome_none,
              Bool.false_eq_true, if_false, pySetItemStr, pyGetItemStr,
              dictLookup_dictSet, ih (.dict []) v h, dsetD, dictSet_dictSet]
          | some child =>
            rw [hlk] at h
            simp only [pyContainsStr, hlk, Option.isSome_some, if_true,
              pyGetItemStr, ih child v h, dsetD]
        · rename_i ak i heq
          rw [heq] at h ⊢
          dsimp only at h ⊢
          simp only [Bool.and_eq_true, decide_eq_true_eq] at h
          obtain ⟨h0, hw⟩ := h
          cases hlk : dictLookup kvs (.str ak) with
          | none =>
            rw [hlk] at hw
            dsimp only at hw
            unfold setupArraySlot
            simp only [pyContainsStr, hlk, Option.isSome_none,
              Bool.false_eq_true, if_false, pySetItemStr, pyGetItemStr,
              dictLookup_dictSet, pyListGet_padTo [] i h0, padElem_nil i h0,
              ih (.dict []) v hw, dsetD, dictSet_dictSet,
              pyListStore_nonneg (padTo [] i) i _ h0 (padTo_length_gt [] i h0)]
          | some w =>
            rw [hlk] at hw
            cases w with
            | noneV => cases hw
            | bool b => cases hw
            | int n => cases hw
            | str s => cases hw
            | dict kvs2 => cases hw
            | list xs =>
              dsimp only at hw
              unfold setupArraySlot
              simp only [pyContainsStr, hlk, Option.isSome_some, if_true,
                pyGetItemStr, pyListGet_padTo xs i h0,
                ih (padElem xs i) v hw, dsetD, dictSet_dictSet,
                pyListStore_nonneg (padTo xs i) i _ h0 (padTo_length_gt xs i h0)]

theorem getSegs_setSpec (segs : List String) :
    ∀ (cfg v dflt : PyVal), validFor cfg segs = true →
      getSegs (setSpec cfg segs v) segs dflt = .ok v := by
  induction segs with
  | nil => intro cfg v dflt h; cases cfg <;> exact Bool.noConfusion h
  | cons k rest ih =>
    intro cfg v dflt h
    cases cfg with
    | noneV => exact Bool.noConfusion h
    | bool b => exact Bool.noConfusion h
    | int n => exact Bool.noConfusion h
    | str s => exact Bool.noConfusion h
    | list xs => exact Bool.noConfusion h
    | dict kvs =>
      cases rest with
      | nil =>
        unfold validFor at h
        simp only [setSpec]
        split
        · rename_i heq
          simp only [getSegs, heq, dictLookup_dictSet, Option.getD_some]
        · rename_i ak i heq
          rw [heq] at h
          dsimp only at h
          simp only [Bool.and_eq_true, decide_eq_true_eq] at h
          obtain ⟨h0, hw⟩ := h
          cases hlk : dictLookup kvs (.str ak) with
          | none =>
            have hlen : i < (((padTo [] i).set i.toNat v).length : Int) := by
              rw [List.length_set]
              exact padTo_length_gt [] i h0
            simp only [getSegs, heq, dictLookup_dictSet]
            rw [if_neg (by omega)]
            rw [pyListGet_nonneg _ _ h0 hlen]
            rw [lget_set_self _ _ _ (by
              have := padTo_length_gt [] i h0
              omega)]
          | some w =>
            rw [hlk] at hw
            cases w with
            | noneV => cases hw
            | bool b => cases hw
            | int n => cases hw
            | str s => cases hw
            | dict kvs2 => cases hw
            | list xs =>
              have hlen : i < (((padTo xs i).set i.toNat v).length : Int) := by
                rw [List.length_set]
                exact padTo_length_gt xs i h0
              simp only [getSegs, heq, dictLookup_dictSet]
              rw [if_neg (by omega)]
              rw [pyListGet_nonneg _ _ h0 hlen]
              rw [lget_set_self _ _ _ (by
                have := padTo_length_gt xs i h0
                omega)]
        · rename_i e heq
          rw [heq] at h
          cases h
      | cons r2 rest' =>
        unfold validFor at h
        simp only [setSpec]
        split
        · rename_i heq
          rw [heq] at h
          dsimp only at h
          cases hlk : dictLookup kvs (.str k) with
          | none =>
            rw [hlk] at h
            simp only [getSegs, heq, dictLookup_dictSet, Option.getD_some]
            exact ih (.dict []) v dflt h
          | some child =>
            rw [hlk] at h
            simp only [getSegs, heq, dictLookup_dictSet, Option.getD_some]
            exact ih child v dflt h
        · rename_i ak i heq
          rw [heq] at h
          dsimp only at h
          simp only [Bool.and_eq_true, decide_eq_true_eq] at h
          obtain ⟨h0, hw⟩ := h
          cases hlk : dictLookup kvs (.str ak) with
          | none =>
            rw [hlk] at hw
            dsimp only at hw
            have hlen : i <
                (((padTo [] i).set i.toNat
                  (setSpec (padElem [] i) (r2 :: rest') v)).length : Int) := by
              rw [List.length_set]
              exact padTo_length_gt [] i h0
            simp only [getSegs, heq, dictLookup_dictSet]
            rw [if_neg (by omega)]
            rw [pyListGet_nonneg _ _ h0 hlen]
            rw [lget_set_self _ _ _ (by
              have := padTo_length_gt [] i h0
              omega)]
            rw [padElem_nil i h0]
            exact ih (.dict []) v dflt hw
          | some w =>
            rw [hlk] at hw
            cases w with
            | noneV => cases hw
            | bool b => cases hw
            | int n => cases hw
            | str s => cases hw
            | dict kvs2 => cases hw
            | list xs =>
              dsimp only at hw
              have hlen : i <
                  (((padTo xs i).set i.toNat
                    (setSpec (padElem xs i) (r2 :: rest') v)).length : Int) := by
                rw [List.length_set]
                exact padTo_length_gt xs i h0
              simp only [getSegs, heq, dictLookup_dictSet]
              rw [if_neg (by omega)]
              rw [pyListGet_nonneg _ _ h0 hlen]
              rw [lget_set_self _ _ _ (by
                have := padTo_length_gt xs i h0
                omega)]
              exact ih (padElem xs i) v dflt hw
        · rename_i e heq
          rw [heq] at h
          cases h

theorem setSegs_setSpec_idem (segs : List String) :
    ∀ (cfg v : PyVal), validFor cfg segs = true →
      setSegs (setSpec cfg segs v) segs v = (setSpec cfg segs v, none) := by
  induction segs with
  | nil => intro cfg v h; cases cfg <;> exact Bool.noConfusion h
  | cons k rest ih =>
    intro cfg v h
    cases cfg with
    | noneV => exact Bool.noConfusion h
    | bool b => exact Bool.noConfusion h
    | int n => exact Bool.noConfusion h
    | str s => exact Bool.noConfusion h
    | list xs => exact Bool.noConfusion h
    | dict kvs =>
      cases rest with
      | nil =>
        unfold validFor at h
        simp only [setSpec]
        split
        · rename_i heq
          simp only [setSegs, heq, pySetItemStr, dictSet_dictSet]
        · rename_i ak i heq
          rw [heq] at h
          dsimp only at h
          simp only [Bool.and_eq_true, decide_eq_true_eq] at h
          obtain ⟨h0, hw⟩ := h
          cases hlk : dictLookup kvs (.str ak) with
          | none =>
            have hlt : i < (((padTo [] i).set i.toNat v).length : Int) := by
              rw [List.length_set]
              exact padTo_length_gt [] i h0
            have hget : ((padTo [] i).set i.toNat v).get? i.toNat = some v :=
              lget_set_self _ _ _ (by
                have := padTo_length_gt [] i h0
                omega)
            simp only [setSegs, heq, setLastIndexed, setupArraySlot,
              pyContainsStr, dictLookup_dictSet, Option.isSome_some, if_true,
              pyGetItemStr, padTo_noop _ i hlt,
              pyListSet_nonneg _ i v h0 hlt, lset_self _ _ _ hget,
              dsetD, dictSet_dictSet]
          | some w =>
            rw [hlk] at hw
            cases w with
            | noneV => cases hw
            | bool b => cases hw
            | int n => cases hw
            | str s => cases hw
            | dict kvs2 => cases hw
            | list xs =>
              have hlt : i < (((padTo xs i).set i.toNat v).length : Int) := by
                rw [List.length_set]
                exact padTo_length_gt xs i h0
              have hget : ((padTo xs i).set i.toNat v).get? i.toNat = some v :=
                lget_set_self _ _ _ (by
                  have := padTo_length_gt xs i h0
                  omega)
              simp only [setSegs, heq, setLastIndexed, setupArraySlot,
                pyContainsStr, dictLookup_dictSet, Option.isSome_some, if_true,
                pyGetItemStr, padTo_noop _ i hlt,
                pyListSet_nonneg _ i v h0 hlt, lset_self _ _ _ hget,
                dsetD, dictSet_dictSet]
        · rename_i e heq
          rw [heq] at h
          cases h
      | cons r2 rest' =>
        unfold validFor at h
        simp only [setSpec]
        split
        · rename_i heq
          rw [heq] at h
          dsimp only at h
          cases hlk : dictLookup kvs (.str k) with
          | none =>
            rw [hlk] at h
            simp only [setSegs, heq, pyContainsStr, dictLookup_dictSet,
              Option.isSome_some, if_true, pyGetItemStr,
              ih (.dict []) v h, dsetD, dictSet_dictSet]
          | some child =>
            rw [hlk] at h
            simp only [setSegs, heq, pyContainsStr, dictLookup_dictSet,
              Option.isSome_some, if_true, pyGetItemStr,
              ih child v h, dsetD, dictSet_dictSet]
        · rename_i ak i heq
          rw [heq] at h
          dsimp only at h
          simp only [Bool.and_eq_true, decide_eq_true_eq] at h
          obtain ⟨h0, hw⟩ := h
          cases hlk : dictLookup kvs (.str ak) with
          | none =>
            rw [hlk] at hw
            dsimp only at hw
            rw [padElem_nil i h0]
            have hlt : i <
                (((padTo [] i).set i.toNat
                  (setSpec (.dict []) (r2 :: rest') v)).length : Int) := by
              rw [List.length_set]
              exact padTo_length_gt [] i h0
            have hget : ((padTo [] i).set i.toNat
                  (setSpec (.dict []) (r2 :: rest') v)).get? i.toNat =
                some (setSpec (.dict []) (r2 :: rest') v) :=
              lget_set_self _ _ _ (by
                have := padTo_length_gt [] i h0
                omega)
            simp only [setSegs, heq, setupArraySlot, pyContainsStr,
              dictLookup_dictSet, Option.isSome_some, if_true, pyGetItemStr,
              padTo_noop _ i hlt, pyListGet_nonneg _ i h0 hlt, hget,
              ih (.dict []) v hw,
              pyListStore_nonneg _ i _ h0 hlt, lset_self _ _ _ hget,
              dsetD, dictSet_dictSet]
          | some w =>
            rw [hlk] at hw
            cases w with
            | noneV => cases hw
            | bool b => cases hw
            | int n => cases hw
            | str s => cases hw
            | dict kvs2 => cases hw
            | list xs =>
              dsimp only at hw
              have hlt : i <
                  (((padTo xs i).set i.toNat
                    (setSpec (padElem xs i) (r2 :: rest') v)).length : Int) := by
                rw [List.length_set]
                exact padTo_length_gt xs i h0
              have hget : ((padTo xs i).set i.toNat
                    (setSpec (padElem xs i) (r2 :: rest') v)).get? i.toNat =
                  some (setSpec (padElem xs i) (r2 :: rest') v) :=
                lget_set_self _ _ _ (by
                  have := padTo_length_gt xs i h0
                  omega)
              simp only [setSegs, heq, setupArraySlot, pyContainsStr,
                dictLookup_dictSet, Option.isSome_some, if_true, pyGetItemStr,
                padTo_noop _ i hlt, pyListGet_nonneg _ i h0 hlt, hget,
                ih (padElem xs i) v hw,
                pyListStore_nonneg _ i _ h0 hlt, lset_self _ _ _ hget,
                dsetD, dictSet_dictSet]
        · rename_i e heq
          rw [heq] at h
          cases h

/-! ## Claims -/

/-- C1 (counterexample): the set/get round-trip fails as universally
stated.  On the default configuration, `set("auth", {})` completes
without error (the traversal writes `{}`, then validation auto-populates
`auth.github` again), but the following `get("auth")` returns the
repopulated mapping, not the written value `{}`. -/
theorem claimC1_counterexample :
    (configSet cfg0 "auth" (PyVal.dict [])).2 = none ∧
    configGet (configSet cfg0 "auth" (PyVal.dict [])).1 "auth" PyVal.noneV =
      .ok (.dict [(.str "github", defaultGithubAuth)]) ∧
    ¬ PyVal.dict [(.str "github", defaultGithubAuth)] = PyVal.dict [] :=
  ⟨rfl, rfl, by simp⟩

/-- C1 (amended): for every dotted/indexed path that is valid for the
configuration (segments address mappings, indexed segments carry a
non-negative index whose array key is absent or bound to a sequence,
padding beyond the current length included) and every value, PROVIDED the
re-validation run by `set` leaves the written configuration unchanged,
`set` succeeds, a following `get` returns exactly the written value, and
repeating the same `set` leaves the configuration state unchanged. -/
theorem claimC1_amended (cfg : PyVal) (key : String) (v dflt : PyVal)
    (hvf : validFor cfg (strSplitChar '.' key) = true)
    (hval : validateConfig (setSegs cfg (strSplitChar '.' key) v).1 =
      ((setSegs cfg (strSplitChar '.' key) v).1, none)) :
    (configSet cfg key v).2 = none ∧
    configGet (configSet cfg key v).1 key dflt = .ok v ∧
    configSet (configSet cfg key v).1 key v = ((configSet cfg key v).1, none) := by
  have hA := setSegs_validFor (strSplitChar '.' key) cfg v hvf
  rw [hA] at hval
  dsimp only at hval
  have hset : configSet cfg key v =
      (setSpec cfg (strSplitChar '.' key) v, none) := by
    unfold configSet
    rw [hA]
    exact hval
  refine ⟨by rw [hset], ?_, ?_⟩
  · rw [hset]
    exact getSegs_setSpec (strSplitChar '.' key) cfg v dflt hvf
  · rw [hset]
    unfold configSet
    rw [setSegs_setSpec_idem (strSplitChar '.' key) cfg v hvf]
    exact hval

/-- C1 (witness): the amended round-trip at a concrete instance. -/
theorem claimC1_witness :
    (configSet cfg0 "resources.include_patterns"
      (PyVal.list [PyVal.str "*.md"])).2 = none ∧
    configGet (configSet cfg0 "resources.include_patterns"
        (PyVal.list [PyVal.str "*.md"])).1 "resources.include_patterns"
        PyVal.noneV = .ok (PyVal.list [PyVal.str "*.md"]) ∧
    configSet (configSet cfg0 "resources.include_patterns"
        (PyVal.list [PyVal.str "*.md"])).1 "resources.include_patterns"
        (PyVal.list [PyVal.str "*.md"]) =
      ((configSet cfg0 "resources.include_patterns"
        (PyVal.list [PyVal.str "*.md"])).1, none) :=
  claimC1_amended cfg0 "resources.include_patterns"
    (PyVal.list [PyVal.str "*.md"]) PyVal.noneV rfl rfl

/-- C2 (counterexample): the claim that a failed `set` leaves no
mutation visible is false.  Setting `providers` to the number `5` on the
default configuration raises the validation error, yet a subsequent
`get("providers")` observes the invalid value `5`. -/
theorem claimC2_counterexample :
    (configSet cfg0 "providers" (PyVal.int 5)).2.isSome = true ∧
    configGet (configSet cfg0 "providers" (PyVal.int 5)).1 "providers"
      PyVal.noneV = .ok (.int 5) := ⟨rfl, rfl⟩

/-- C2 (amended): `Config.set` re-runs full validation after mutating
(whenever the traversal itself raises no exception, the result of `set`
is exactly the result of validating the mutated state) and fails with the
structural `ValueError` when the result violates the invariants; however
the mutation persists past the error, so an observer subsequently reading
the configuration sees the invalid structure. -/
theorem claimC2_amended :
    (∀ (cfg : PyVal) (key : String) (v : PyVal),
      (setSegs cfg (strSplitChar '.' key) v).2 = none →
      configSet cfg key v = validateConfig (setSegs cfg (strSplitChar '.' key) v).1) ∧
    (configSet cfg0 "providers" (PyVal.int 5)).2 =
      some (.valueError "Providers must be a dictionary") ∧
    (configSet cfg0 "providers" (PyVal.int 5)).1 =
      .dict [(.str "providers", .int 5),
             (.str "auth", .dict [(.str "github", defaultGithubAuth)])] ∧
    (validateConfig (configSet cfg0 "providers" (PyVal.int 5)).1).2 =
      some (.valueError "Providers must be a dictionary") := by
  refine ⟨fun cfg key v h => ?_, rfl, rfl, rfl⟩
  unfold configSet
  rcases hs : setSegs cfg (strSplitChar '.' key) v with ⟨c, e⟩
  rw [hs] at h
  simp only at h
  subst h
  rfl
/-- C2 (witness): the amended statement's validation-rerun clause at a
concrete instance. -/
theorem claimC2_witness :
    configSet cfg0 "providers" (PyVal.int 5) =
      validateConfig
        (setSegs cfg0 (strSplitChar '.' "providers") (PyVal.int 5)).1 :=
  claimC2_amended.1 cfg0 "providers" (PyVal.int 5) rfl

/-- C3 (counterexample): `Config.get` is not total.  A bracketed
non-integer index makes `int()` raise an uncontrolled `ValueError`
(there is no distinguished `InvalidPath` error), and a mapping-valued
default is descended into on an intermediate miss, so the returned value
need not be the supplied default. -/
theorem claimC3_counterexample :
    configGet (.dict []) "a[x]" PyVal.noneV =
      .error (.valueError "invalid literal for int() with base 10") ∧
    configGet (.dict []) "a.b" (.dict [(.str "b", .int 7)]) = .ok (.int 7) :=
  ⟨rfl, rfl⟩

/-- C3 (amended): `Config.get` never raises on paths whose segments are
well formed (any bracketed segment has a parseable, non-negative index);
a traversal mismatch — missing key, out-of-range index, or wrong-type
cursor — yields the supplied default (shown for a scalar default on an
intermediate miss and for any default elsewhere); a segment containing
`[` without `]` is treated as a literal mapping key rather than an error;
and a bracketed non-integer index raises Python's `ValueError` rather
than being surfaced as a distinguished `InvalidPath` error. -/
theorem claimC3_amended :
    (∀ (cfg dflt : PyVal) (key : String),
      (strSplitChar '.' key).all wfSeg = true →
      ∃ r, configGet cfg key dflt = .ok r) ∧
    (∀ dflt : PyVal, configGet cfg0 "missing" dflt = .ok dflt) ∧
    (∀ dflt : PyVal, isScalar dflt = true →
      configGet cfg0 "missing.key" dflt = .ok dflt) ∧
    (∀ dflt : PyVal, configGet cfg0 "providers.github[5]" dflt = .ok dflt) ∧
    (∀ dflt : PyVal, configGet cfg0 "providers.github.x" dflt = .ok dflt) ∧
    (∀ v dflt : PyVal, configGet (.dict [(.str "a[0", v)]) "a[0" dflt = .ok v) ∧
    configGet (.dict []) "a[x]" PyVal.noneV =
      .error (.valueError "invalid literal for int() with base 10") := by
  refine ⟨fun cfg dflt key h => getSegs_wf_ok _ cfg dflt h, fun dflt => rfl,
    fun dflt h => ?_, fun dflt => rfl, fun dflt => rfl, fun v dflt => rfl, rfl⟩
  cases dflt with
  | noneV => rfl
  | bool b => rfl
  | int n => rfl
  | str s => rfl
  | list xs => exact Bool.noConfusion h
  | dict kvs => exact Bool.noConfusion h

/-- C3 (witness): totality on a concrete well-formed indexed path. -/
theorem claimC3_witness :
    ∃ r, configGet cfg0 "providers.github[0]" PyVal.noneV = .ok r :=
  claimC3_amended.1 cfg0 PyVal.noneV "providers.github[0]" rfl
/-- C4 (counterexample): URL parsing is not strict.  `http://…` (wrong
scheme) and a URL with an extra trailing path segment are both accepted
by `GitHubProvider.__init__`, contradicting the claim that only
`https://github.com/{owner}/{repo}` passes. -/
theorem claimC4_counterexample :
    parseGitHubUrl "http://github.com/owner/repo" = .ok ("owner", "repo") ∧
    parseGitHubUrl "https://github.com/owner/repo/extra" =
      .ok ("owner", "repo") := ⟨rfl, rfl⟩

/-- C4 (amended): construction checks only that the `/`-right-stripped
URL splits on `/` into at least five parts with the third equal to
`github.com`, taking owner and repo from the fourth and fifth parts —
so any scheme and extra trailing segments are accepted — and fails with
the construction-time `ValueError` exactly when that check fails. -/
theorem claimC4_amended (url o r : String) :
    (parseGitHubUrl url = .ok (o, r) ↔
      (5 ≤ (strSplitChar '/' (strDropRightWhile (· = '/') url)).length ∧
       (strSplitChar '/' (strDropRightWhile (· = '/') url)).get? 2 = some "github.com" ∧
       (strSplitChar '/' (strDropRightWhile (· = '/') url)).get? 3 = some o ∧
       (strSplitChar '/' (strDropRightWhile (· = '/') url)).get? 4 = some r)) ∧
    (parseGitHubUrl url =
        .error (.valueError
          "Invalid GitHub URL format. Expected: https://github.com/owner/repo") ↔
      ((strSplitChar '/' (strDropRightWhile (· = '/') url)).length < 5 ∨
       ¬ (strSplitChar '/' (strDropRightWhile (· = '/') url)).get? 2 =
          some "github.com")) := by
  unfold parseGitHubUrl
  set parts := strSplitChar '/' (strDropRightWhile (· = '/') url) with hp
  by_cases h : parts.length < 5 ∨ ¬ parts.get? 2 = some "github.com"
  · rw [if_pos h]
    refine ⟨⟨fun he => absurd he (by simp), fun hr => ?_⟩, ⟨fun _ => h, fun _ => rfl⟩⟩
    exfalso
    rcases h with h | h
    · omega
    · exact h hr.2.1
  · rw [if_neg h]
    push_neg at h
    obtain ⟨h5, h2⟩ := h
    have h3 : ∃ a, parts.get? 3 = some a :=
      ⟨parts.get ⟨3, by omega⟩, List.get?_eq_some.mpr ⟨by omega, rfl⟩⟩
    have h4 : ∃ a, parts.get? 4 = some a :=
      ⟨parts.get ⟨4, by omega⟩, List.get?_eq_some.mpr ⟨by omega, rfl⟩⟩
    obtain ⟨a3, ha3⟩ := h3
    obtain ⟨a4, ha4⟩ := h4
    rw [ha3, ha4]
    simp only [Option.getD_some]
    constructor
    · constructor
      · intro he
        injection he with hpr
        injection hpr with ho hr
        exact ⟨h5, h2, by rw [ho], by rw [hr]⟩
      · rintro ⟨-, -, h3', h4'⟩
        injection h3' with h3'
        injection h4' with h4'
        rw [h3', h4']
    · exact ⟨fun he => absurd he (by simp), fun hr => by
        rcases hr with hr | hr
        · omega
        · exact absurd h2 hr⟩
/-- C5: the include/exclude filter applies the two gitignore-style
pattern sets in fixed order — include patterns first (keep only matches
when the set is non-empty, keep all when empty), then exclude patterns
(drop matches) — to any candidate relative-path list; in particular,
with no includes and the default excludes, `{a.txt, b.pyc, .git/config}`
is narrowed to `a.txt` only. -/
theorem claimC5_filter_contract :
    (∀ (includes excludes paths : List String),
      filterFilePaths includes excludes paths =
        (paths.filter
            (fun f => includes.isEmpty || matchAnyPattern includes f)).filter
          (fun f => !matchAnyPattern excludes f)) ∧
    (∀ (includes excludes paths : List String) (x : String),
      x ∈ filterFilePaths includes excludes paths ↔
        (x ∈ paths ∧ (includes = [] ∨ matchAnyPattern includes x = true) ∧
          ¬ matchAnyPattern excludes x = true)) ∧
    filterFilePaths [] defaultExcludePatterns ["a.txt", "b.pyc", ".git/config"] =
      ["a.txt"] ∧
    filterFilePaths ["*.txt"] [] ["a.txt", "b.md"] = ["a.txt"] := by
  have key : ∀ (includes excludes paths : List String),
      filterFilePaths includes excludes paths =
        (paths.filter
            (fun f => includes.isEmpty || matchAnyPattern includes f)).filter
          (fun f => !matchAnyPattern excludes f) := by
    intro includes excludes paths
    unfold filterFilePaths
    by_cases hpaths : paths.isEmpty
    · rw [if_pos hpaths]
      rw [List.isEmpty_iff] at hpaths
      subst hpaths
      rfl
    · rw [if_neg hpaths]
      by_cases hinc : includes.isEmpty <;> by_cases hexc : excludes.isEmpty <;>
        simp only [hinc, hexc, if_true, if_false]
      · rw [List.isEmpty_iff] at hexc
        subst hexc
        simp [matchAnyPattern, hinc]
      · simp [hinc]
      · rw [List.isEmpty_iff] at hexc
        subst hexc
        simp [matchAnyPattern, hinc]
      · simp [hinc]
  refine ⟨key, fun includes excludes paths x => ?_, rfl, rfl⟩
  rw [key]
  simp only [List.mem_filter, Bool.or_eq_true, List.isEmpty_iff,
    Bool.not_eq_true', Bool.not_eq_true]
  constructor
  · rintro ⟨⟨hx, hi⟩, he⟩
    refine ⟨hx, hi, ?_⟩
    simp [he]
  · rintro ⟨hx, hi, he⟩
    refine ⟨⟨hx, hi⟩, ?_⟩
    simpa using he
/-- C6 (counterexample): the fallback branch of the token validator
also accepts a 20-character `[A-Za-z0-9_-]` token followed by a single
trailing newline (Python's `$` matches just before a final newline), a
string that contains a character outside the class and fits none of the
other accepted shapes — contradicting "rejects everything else". -/
theorem claimC6_counterexample :
    isValidGithubToken "aaaaaaaaaaaaaaaaaaaa\n" = true ∧
    "aaaaaaaaaaaaaaaaaaaa\n".toList.all isTokenChar = false ∧
    githubPrefixes.any (strStartsWith · "aaaaaaaaaaaaaaaaaaaa\n") = false ∧
    strStartsWith "github_pat_" "aaaaaaaaaaaaaaaaaaaa\n" = false ∧
    ¬ "aaaaaaaaaaaaaaaaaaaa\n".length = 40 :=
  ⟨rfl, rfl, rfl, rfl, by decide⟩
/-- C6 (amended): exact characterization of the token-shape validator:
a token is accepted iff it is non-empty, of length ≥ 20, and (in this
priority order) either carries a `ghp_`/`gho_`/`ghu_`/`ghs_`/`ghr_`
prefix with length ≥ 36, or is a 40-character lowercase-hex string, or
carries the `github_pat_` prefix with length ≥ 50, or consists only of
`[A-Za-z0-9_-]` characters — optionally followed by one trailing
newline, which the `$` of Python's `re.match` tolerates.  A 10-character
string is rejected by the length bound. -/
theorem claimC6_amended (t : String) :
    isValidGithubToken t = true ↔
      (¬ t = "" ∧ 20 ≤ t.length ∧
        ((githubPrefixes.any (strStartsWith · t) = true ∧ 36 ≤ t.length) ∨
         (githubPrefixes.any (strStartsWith · t) = false ∧ t.length = 40 ∧
            t.toList.all isHexLower = true) ∨
         (githubPrefixes.any (strStartsWith · t) = false ∧
            ¬ (t.length = 40 ∧ t.toList.all isHexLower = true) ∧
            strStartsWith "github_pat_" t = true ∧ 50 ≤ t.length) ∨
         (githubPrefixes.any (strStartsWith · t) = false ∧
            ¬ (t.length = 40 ∧ t.toList.all isHexLower = true) ∧
            strStartsWith "github_pat_" t = false ∧
            (t.toList.all isTokenChar = true ∨
              (strEndsWith "\n" t = true ∧ ¬ strDropRight 1 t = "" ∧
               (strDropRight 1 t).toList.all isTokenChar = true))))) := by
  unfold isValidGithubToken
  by_cases h0 : (t = "" || decide (t.length < 20)) = true
  · rw [if_pos h0]
    simp only [Bool.or_eq_true, decide_eq_true_eq] at h0
    constructor
    · intro h; cases h
    · rintro ⟨he, hl, -⟩
      rcases h0 with h0 | h0
      · exact absurd h0 he
      · omega
  · rw [if_neg h0]
    simp only [Bool.or_eq_true, decide_eq_true_eq, not_or, decide_eq_true_eq] at h0
    obtain ⟨he, hl⟩ := h0
    have hl' : 20 ≤ t.length := by omega
    by_cases hp : githubPrefixes.any (fun x => strStartsWith x t) = true
    · rw [if_pos hp]
      constructor
      · intro h36
        exact ⟨he, hl', .inl ⟨hp, decide_eq_true_eq.mp h36⟩⟩
      · rintro ⟨-, -, D⟩
        rcases D with ⟨-, h36⟩ | ⟨hc, -⟩ | ⟨hc, -⟩ | ⟨hc, -⟩
        · exact decide_eq_true_eq.mpr h36
        all_goals rw [hp] at hc; cases hc
    · rw [if_neg hp]
      have hp' : githubPrefixes.any (fun x => strStartsWith x t) = false :=
        Bool.eq_false_iff.mpr hp
      by_cases h40 : (decide (t.length = 40) && reMatchHex40 t) = true
      · rw [if_pos h40]
        simp only [Bool.and_eq_true, decide_eq_true_eq] at h40
        obtain ⟨hlen, hhex⟩ := h40
        rw [reMatchHex40_len40 t hlen] at hhex
        exact ⟨fun _ => ⟨he, hl', .inr (.inl ⟨hp', hlen, hhex⟩)⟩, fun _ => rfl⟩
      · rw [if_neg h40]
        have h40' : ¬ (t.length = 40 ∧ t.toList.all isHexLower = true) := by
          rintro ⟨hlen, hhex⟩
          exact h40 (by
            rw [reMatchHex40_len40 t hlen, hhex]
            simp [hlen])
        by_cases hpat : strStartsWith "github_pat_" t = true
        · rw [if_pos hpat]
          constructor
          · intro h50
            exact ⟨he, hl',
              .inr (.inr (.inl ⟨hp', h40', hpat, decide_eq_true_eq.mp h50⟩))⟩
          · rintro ⟨-, -, D⟩
            rcases D with ⟨hc, -⟩ | ⟨hc, hlen, hhex⟩ | ⟨-, -, -, h50⟩ | ⟨-, -, hc, -⟩
            · rw [hp'] at hc; cases hc
            · exact absurd ⟨hlen, hhex⟩ h40'
            · exact decide_eq_true_eq.mpr h50
            · rw [hpat] at hc; cases hc
        · rw [if_neg hpat]
          have hpat' : strStartsWith "github_pat_" t = false :=
            Bool.eq_false_iff.mpr hpat
          by_cases hfb : (decide (20 ≤ t.length) && reMatchClassPlus isTokenChar t) = true
          · rw [if_pos hfb]
            simp only [Bool.and_eq_true, decide_eq_true_eq] at hfb
            obtain ⟨-, hcls⟩ := hfb
            unfold reMatchClassPlus at hcls
            simp only [Bool.or_eq_true, Bool.and_eq_true, Bool.not_eq_true',
              decide_eq_false_iff_not] at hcls
            refine ⟨fun _ => ⟨he, hl', .inr (.inr (.inr ⟨hp', h40', hpat', ?_⟩))⟩,
              fun _ => rfl⟩
            rcases hcls with ⟨-, hall⟩ | ⟨⟨hnl, hne⟩, hall⟩
            · exact .inl hall
            · exact .inr ⟨hnl, hne, hall⟩
          · rw [if_neg hfb]
            constructor
            · intro h; cases h
            · rintro ⟨-, -, D⟩
              exfalso
              rcases D with ⟨hc, -⟩ | ⟨hc, hlen, hhex⟩ | ⟨-, -, hc, -⟩ | ⟨-, -, -, hcl⟩
              · rw [hp'] at hc; cases hc
              · exact absurd ⟨hlen, hhex⟩ h40'
              · rw [hpat'] at hc; cases hc
              · apply hfb
                simp only [Bool.and_eq_true, decide_eq_true_eq]
                refine ⟨hl', ?_⟩
                unfold reMatchClassPlus
                rcases hcl with hall | ⟨hnl, hne, hall⟩
                · simp only [Bool.or_eq_true, Bool.and_eq_true, Bool.not_eq_true',
                    decide_eq_false_iff_not]
                  exact .inl ⟨he, hall⟩
                · simp only [Bool.or_eq_true, Bool.and_eq_true, Bool.not_eq_true',
                    decide_eq_false_iff_not]
                  exact .inr ⟨⟨hnl, hne⟩, hall⟩
/-- C7: in `download_folder` of both provider variants, with
`clean=true` every file below the target directory that existed before
the call is removed before the new files are written, so a pre-existing
file not among the transferred paths is absent afterwards; with
`clean=false` such a file keeps its content alongside the newly
transferred files. -/
theorem claimC7_clean_contract (lp : LocalProviderM) (gp : GitHubProviderM) (tree : TreeFetch)
    (fetch : String → Option String) (fs0 : FS)
    (target name c0 pattern : String) (recursive : Bool) :
    (lp.enabled = true → fsDirExists fs0 lp.basePath = true →
      name ∉ (localDownloadFolder lp fs0 target pattern recursive true).1 →
      fsGetFile (localDownloadFolder lp fs0 target pattern recursive true).2
        (target ++ "/" ++ name) = none) ∧
    (fsGetFile fs0 (target ++ "/" ++ name) = some c0 →
      name ∉ (localDownloadFolder lp fs0 target pattern recursive false).1 →
      fsGetFile (localDownloadFolder lp fs0 target pattern recursive false).2
        (target ++ "/" ++ name) = some c0) ∧
    (gp.enabled = true → ¬ target = "" →
      name ∉ (ghDownloadFolder gp tree fetch fs0 target pattern recursive true).1 →
      fsGetFile (ghDownloadFolder gp tree fetch fs0 target pattern recursive true).2
        (target ++ "/" ++ name) = none) ∧
    (¬ target = "" → fsGetFile fs0 (target ++ "/" ++ name) = some c0 →
      name ∉ (ghDownloadFolder gp tree fetch fs0 target pattern recursive false).1 →
      fsGetFile (ghDownloadFolder gp tree fetch fs0 target pattern recursive false).2
        (target ++ "/" ++ name) = some c0) := by
  have hcancel : ∀ rel : String, target ++ "/" ++ rel = target ++ "/" ++ name →
      rel = name := fun rel h => strAppend_left_cancel h
  refine ⟨?_, ?_, ?_, ?_⟩
  · intro h1 h2 h3
    unfold localDownloadFolder at h3 ⊢
    simp only [h1, h2, Bool.not_true, Bool.false_or, Bool.false_eq_true,
      if_false, Bool.true_and, fsDirExists_mkdir fs0 target, if_true] at h3 ⊢
    rw [localCopyLoop_preserve _ _ _ _ _
      (fun rel hrel heq => h3 (hcancel rel heq ▸ hrel))]
    exact fsGetFile_cleanDir _ _ _ (underDir_append target name)
  · intro hpre h3
    unfold localDownloadFolder at h3 ⊢
    cases hguard : (!lp.enabled || !fsDirExists fs0 lp.basePath) with
    | true =>
      simp only [hguard, if_true] at h3 ⊢
      exact hpre
    | false =>
      simp only [hguard, Bool.false_eq_true, if_false, Bool.false_and] at h3 ⊢
      rw [localCopyLoop_preserve _ _ _ _ _
        (fun rel hrel heq => h3 (hcancel rel heq ▸ hrel))]
      rw [fsGetFile_mkdir]
      exact hpre
  · intro h1 hT h3
    unfold ghDownloadFolder at h3 ⊢
    simp only [h1, Bool.not_true, Bool.false_eq_true, if_false] at h3 ⊢
    rw [if_neg (show ¬(target = "" ∧ gp.selfTargetDir.getD "" ≠ "") from
      fun hc => hT hc.1)] at h3 ⊢
    simp only [Bool.true_and, fsDirExists_mkdir fs0 target, if_true] at h3 ⊢
    have hclean : fsGetFile (fsCleanDir (fsMkdir fs0 target) target)
        (target ++ "/" ++ name) = none :=
      fsGetFile_cleanDir _ _ _ (underDir_append target name)
    cases tree with
    | failure => exact hclean
    | missingTreeKey => exact hclean
    | ok entries =>
      rw [ghCopyLoop_preserve _ _ _ _ _
        (fun rel hrel heq => h3 (hcancel rel heq ▸ hrel))]
      exact hclean
  · intro hT hpre h3
    unfold ghDownloadFolder at h3 ⊢
    cases hguard : (!gp.enabled) with
    | true =>
      simp only [hguard, if_true] at h3 ⊢
      exact hpre
    | false =>
      simp only [hguard, Bool.false_eq_true, if_false, Bool.false_and] at h3 ⊢
      rw [if_neg (show ¬(target = "" ∧ gp.selfTargetDir.getD "" ≠ "") from
        fun hc => hT hc.1)] at h3 ⊢
      have hbase : fsGetFile (fsMkdir fs0 target) (target ++ "/" ++ name) =
          some c0 := by rw [fsGetFile_mkdir]; exact hpre
      cases tree with
      | failure => exact hbase
      | missingTreeKey => exact hbase
      | ok entries =>
        rw [ghCopyLoop_preserve _ _ _ _ _
          (fun rel hrel heq => h3 (hcancel rel heq ▸ hrel))]
        exact hbase
/-- C7 (witness): the local-provider clean conjunct at a concrete
filesystem. -/
theorem claimC7_witness :
    fsGetFile (localDownloadFolder ⟨true, "src", [], defaultExcludePatterns⟩
        ⟨[("src/a.txt", "hi"), ("tgt/old.txt", "o")], ["src", "tgt"]⟩
        "tgt" "*" true true).2 ("tgt" ++ "/" ++ "old.txt") = none :=
  (claimC7_clean_contract ⟨true, "src", [], defaultExcludePatterns⟩
      ⟨true, "resources", [], [], none⟩ .failure (fun _ => none)
      ⟨[("src/a.txt", "hi"), ("tgt/old.txt", "o")], ["src", "tgt"]⟩
      "tgt" "old.txt" "o" "*" true).1 rfl rfl (by decide)

/-- C8: `Config` construction (validation) rejects exactly the
malformed shapes the spec lists — a github entry missing `name` or
`url`, a local entry missing `name` or `path`, and an
`auth.github.method` outside {default, auto, dotenv, gitcli} each fail
with the corresponding `ValueError` — while a missing `providers` key or
`auth` section is auto-populated with defaults rather than rejected. -/
theorem claimC8_validation_shapes :
    (∀ kvs : List (PyKey × PyVal), (dictLookup kvs (.str "name")).isSome = false →
      (configInit (.dict [(.str "providers",
          .dict [(.str "github", .list [.dict kvs])])])).2 =
        some (.valueError "GitHub provider must have a name")) ∧
    (∀ kvs : List (PyKey × PyVal), (dictLookup kvs (.str "name")).isSome = true →
      (dictLookup kvs (.str "url")).isSome = false →
      (configInit (.dict [(.str "providers",
          .dict [(.str "github", .list [.dict kvs])])])).2 =
        some (.valueError "GitHub provider must have a URL")) ∧
    (∀ kvs : List (PyKey × PyVal), (dictLookup kvs (.str "name")).isSome = false →
      (configInit (.dict [(.str "providers",
          .dict [(.str "local", .list [.dict kvs])])])).2 =
        some (.valueError "Local provider must have a name")) ∧
    (∀ kvs : List (PyKey × PyVal), (dictLookup kvs (.str "name")).isSome = true →
      (dictLookup kvs (.str "path")).isSome = false →
      (configInit (.dict [(.str "providers",
          .dict [(.str "local", .list [.dict kvs])])])).2 =
        some (.valueError "Local provider must have a path")) ∧
    (∀ m : PyVal, validMethods.any (pyEqStr m) = false →
      (configInit (.dict [(.str "auth", .dict [(.str "github",
          .dict [(.str "method", m)])])])).2 =
        some (.valueError "Invalid auth method")) ∧
    ((configInit (.dict [])).2 = none ∧
      configGet (configInit (.dict [])).1 "providers.github" .noneV = .ok (.list []) ∧
      configGet (configInit (.dict [])).1 "providers.local" .noneV = .ok (.list []) ∧
      configGet (configInit (.dict [])).1 "auth.github.method" .noneV = .ok (.str "auto")) := by
  refine ⟨fun kvs h => ?_, fun kvs h1 h2 => ?_, fun kvs h => ?_,
    fun kvs h1 h2 => ?_, fun m h => ?_, rfl, rfl, rfl, rfl⟩
  · simp [configInit, pyTruthy, validateConfig, dgetD, dsetD, dictLookup, dictSet,
      checkGithubEntries, h]
  · simp [configInit, pyTruthy, validateConfig, dgetD, dsetD, dictLookup, dictSet,
      checkGithubEntries, h1, h2]
  · simp [configInit, pyTruthy, validateConfig, dgetD, dsetD, dictLookup, dictSet,
      checkGithubEntries, checkLocalEntries, h]
  · simp [configInit, pyTruthy, validateConfig, dgetD, dsetD, dictLookup, dictSet,
      checkGithubEntries, checkLocalEntries, h1, h2]
  · simp [configInit, pyTruthy, validateConfig, dgetD, dsetD, dictLookup, dictSet,
      checkGithubEntries, checkLocalEntries, defaultProvidersVal, h]
/-- C8 (witness): a github entry without `name` fails validation. -/
theorem claimC8_witness :
    (configInit (.dict [(.str "providers", .dict [(.str "github",
        .list [.dict [(.str "url", .str "u")]])])])).2 =
      some (.valueError "GitHub provider must have a name") :=
  claimC8_validation_shapes.1 [(.str "url", .str "u")] rfl

/-- C9: in `GitHubProvider.download_folder` with `clean=true`, the
destructive clearing of the target happens before the tree enumeration
is attempted: when the enumeration fails, the call returns the empty
sequence with the target already emptied — the clean is not rolled back
and pre-existing target contents are lost although nothing was
transferred. -/
theorem claimC9_clean_before_enumeration (p : GitHubProviderM) (fetch : String → Option String)
    (fs0 : FS) (target name pattern : String) (recursive : Bool)
    (hEn : p.enabled = true) (hT : ¬ target = "") :
    (ghDownloadFolder p .failure fetch fs0 target pattern recursive true).1 = [] ∧
    fsGetFile
      (ghDownloadFolder p .failure fetch fs0 target pattern recursive true).2
      (target ++ "/" ++ name) = none := by
  unfold ghDownloadFolder
  simp only [hEn, Bool.not_true, Bool.false_eq_true, if_false]
  rw [if_neg (show ¬(target = "" ∧ p.selfTargetDir.getD "" ≠ "") from
    fun hc => hT hc.1)]
  simp only [Bool.true_and, fsDirExists_mkdir fs0 target, if_true]
  refine ⟨?_, fsGetFile_cleanDir _ _ _ (underDir_append target name)⟩
  trivial
/-- C9 (witness): the un-rolled-back clean at a concrete filesystem. -/
theorem claimC9_witness :
    (ghDownloadFolder ⟨true, "resources", [], [], none⟩ .failure
        (fun _ => none) ⟨[("tgt/old.txt", "o")], ["tgt"]⟩
        "tgt" "*" true true).1 = [] ∧
    fsGetFile (ghDownloadFolder ⟨true, "resources", [], [], none⟩ .failure
        (fun _ => none) ⟨[("tgt/old.txt", "o")], ["tgt"]⟩
        "tgt" "*" true true).2 ("tgt" ++ "/" ++ "old.txt") = none :=
  claimC9_clean_before_enumeration ⟨true, "resources", [], [], none⟩
    (fun _ => none) ⟨[("tgt/old.txt", "o")], ["tgt"]⟩ "tgt" "old.txt" "*"
    true rfl (by decide)

/-- C10: `Config.set` auto-vivifies only missing intermediate nodes:
whenever the set traversal reaches, at an intermediate segment with
parseable remaining segments, an already-present scalar value (a number,
string, boolean or null bound to a plain key, or such an in-range
sequence element), the call raises Python's uncontrolled `TypeError`
from the underlying structure — it neither replaces the value, nor
vivifies past it, nor reports a `ConfigInvalid`/`InvalidPath` error. -/
theorem claimC10_scalar_type_error (cfg : PyVal) (key : String) (v : PyVal)
    (h : meetsScalar cfg (strSplitChar '.' key) = true) :
    (configSet cfg key v).2 = some PyErr.typeError := by
  unfold configSet
  have h2 := setSegs_meetsScalar (strSplitChar '.' key) cfg v h
  rcases hs : setSegs cfg (strSplitChar '.' key) v with ⟨c, e⟩
  rw [hs] at h2
  simp only at h2
  subst h2
  rfl
/-- C10 (witness): setting `a.b` when `a` holds a number. -/
theorem claimC10_witness :
    (configSet (.dict [(.str "a", .int 5)]) "a.b" PyVal.noneV).2 =
      some PyErr.typeError :=
  claimC10_scalar_type_error (.dict [(.str "a", .int 5)]) "a.b" PyVal.noneV rfl